import Mathlib

/-!
Verification of the Hexaequo board/rules engine.

This file gives a shallow embedding in Lean 4 of the engine code:

* `Hex`, `HEX_DIRECTIONS` and the board queries of `js/HexGrid.js`
  (class `Hex`, class `HexGrid`);
* the game-state machine of `js/core/GameState.js` (class `GameState`);
* the stateless rules layer of `js/GameRules.js` (class `GameRules`).

Modelling conventions:

* JS `Map` objects keyed by `hex.hash()` strings are modelled as
  association lists keyed by `Hex`; the theorem for the hash round trip
  proves that the string keys are in bijection with the coordinates, so
  the two views agree.
* JS numbers that only ever hold integers are modelled as `Int`
  (resource pools) or `Nat` (counts, distances).
* The recursive jump search of `HexGrid._findJumpMoves`, which in JS
  terminates because the visited set grows inside a finite board, is
  given explicit fuel; the fuel chosen by `getValidDiscMoves` is large
  enough to never be exhausted on the boards the engine builds.
* the sequence save-history / check-win / maybe-switch-player, inlined
  by the source at each call site, is factored into `finishTurn`.
-/

/-- Axial hex coordinate, from class `Hex` of HexGrid.js. -/
structure Hex where
  q : Int
  r : Int
deriving DecidableEq, Repr

namespace Hex

/-- `Hex.add`. -/
def add (a b : Hex) : Hex := ⟨a.q + b.q, a.r + b.r⟩

/-- `Hex.subtract`. -/
def sub (a b : Hex) : Hex := ⟨a.q - b.q, a.r - b.r⟩

/-- `Hex.length`: floor of (|q| + |r| + |s|) / 2 with s = -q-r. -/
def len (h : Hex) : Nat := (h.q.natAbs + h.r.natAbs + (h.q + h.r).natAbs) / 2

/-- `Hex.distance`. -/
def distance (a b : Hex) : Nat := (a.sub b).len

end Hex

/-- `HEX_DIRECTIONS`: East, NE, NW, West, SW, SE. -/
def hexDirections : List Hex :=
  [⟨1, 0⟩, ⟨1, -1⟩, ⟨0, -1⟩, ⟨-1, 0⟩, ⟨-1, 1⟩, ⟨0, 1⟩]

/-! ## The hash string of a hex and its parser (`Hex.hash`, `Hex.fromHash`) -/

/-- One decimal digit as a character. -/
def digitChar (d : Nat) : Char :=
  if d = 0 then '0' else if d = 1 then '1' else if d = 2 then '2'
  else if d = 3 then '3' else if d = 4 then '4' else if d = 5 then '5'
  else if d = 6 then '6' else if d = 7 then '7' else if d = 8 then '8'
  else if d = 9 then '9' else 'X'

/-- Numeric value of a decimal digit character. -/
def digitVal (c : Char) : Nat :=
  if c = '0' then 0 else if c = '1' then 1 else if c = '2' then 2
  else if c = '3' then 3 else if c = '4' then 4 else if c = '5' then 5
  else if c = '6' then 6 else if c = '7' then 7 else if c = '8' then 8
  else if c = '9' then 9 else 0

/-- Decimal digit characters of `n`, most significant first (empty for 0);
fuelled division loop. -/
def natCharsAux : Nat → Nat → List Char
  | 0, _ => []
  | fuel + 1, n => if n = 0 then [] else natCharsAux fuel (n / 10) ++ [digitChar (n % 10)]

/-- Decimal representation of a natural number, as JS `String(n)` writes it. -/
def natChars (n : Nat) : List Char :=
  if n = 0 then ['0'] else natCharsAux n n

/-- Decimal representation of an integer, as JS `String(i)` writes it. -/
def intChars (i : Int) : List Char :=
  if i < 0 then '-' :: natChars i.natAbs else natChars i.natAbs

/-- Parse a digit string (the inverse of `natChars` on its image). -/
def parseNatChars (cs : List Char) : Nat :=
  cs.foldl (fun acc c => acc * 10 + digitVal c) 0

/-- Parse an optionally negated digit string. -/
def parseIntChars (cs : List Char) : Int :=
  match cs with
  | [] => 0
  | c :: rest => if c = '-' then -(parseNatChars rest : Int) else (parseNatChars cs : Int)

/-- `Hex.hash`: the string "q,r". -/
def Hex.hash (h : Hex) : String :=
  ⟨intChars h.q ++ ',' :: intChars h.r⟩

/-- `Hex.fromHash`: split the hash on the comma and parse the two parts. -/
def Hex.fromHash (s : String) : Hex :=
  let cs := s.data
  ⟨parseIntChars (cs.takeWhile (fun c => ¬ c = ',')),
   parseIntChars ((cs.dropWhile (fun c => ¬ c = ',')).drop 1)⟩

/-! ## Cells, pieces and the board -/

/-- Player colors. -/
inductive Color where
  | black
  | white
deriving DecidableEq, Repr

/-- The two piece kinds. -/
inductive PieceType where
  | disc
  | ring
deriving DecidableEq, Repr

/-- A piece: `{type, color}`. -/
structure Piece where
  type : PieceType
  color : Color
deriving DecidableEq, Repr

/-- A board cell: a tile of some color, optionally carrying a piece.
The constant JS field `type: 'tile'` is omitted. -/
structure Cell where
  color : Color
  piece : Option Piece
deriving DecidableEq, Repr

/-- The sparse board of `HexGrid`: the `cells` map, as an association list
(JS keys are `hex.hash()` strings; the hash round-trip theorem below shows
the string keys are in bijection with the coordinates). -/
abbrev Board := List (Hex × Cell)

/-- `HexGrid.getCell`. -/
def getCell (b : Board) (h : Hex) : Option Cell :=
  match b with
  | [] => none
  | (k, c) :: rest => if k = h then some c else getCell rest h

/-- `HexGrid.setCell` (JS `Map.set`: replace the entry if the key is
present, otherwise append it). The grid-bounds bookkeeping, used only by
the renderer, is omitted. -/
def setCell (b : Board) (h : Hex) (c : Cell) : Board :=
  match b with
  | [] => [(h, c)]
  | (k, c') :: rest => if k = h then (h, c) :: rest else (k, c') :: setCell rest h c

/-- `HexGrid.hasCell`. -/
def hasCell (b : Board) (h : Hex) : Bool :=
  (getCell b h).isSome

/-- `HexGrid.getNeighborHexes`: the six neighbours in direction order,
whether or not they exist in the grid. -/
def getNeighborHexes (h : Hex) : List Hex :=
  hexDirections.map (fun dir => h.add dir)

/-! ## Placement queries of `HexGrid` -/

/-- `HexGrid.isValidTilePlacement`: no cell there yet, and at least two of
the six neighbour coordinates hold tiles. -/
def isValidTilePlacement (b : Board) (h : Hex) : Bool :=
  if hasCell b h then false
  else ((getNeighborHexes h).filter (fun n => hasCell b n)).length ≥ 2

/-- `HexGrid.getValidTilePlacements`: empty neighbours of existing cells
(deduplicated, as the JS Set does), filtered by `isValidTilePlacement`.
The color parameter is accepted but unused, as in the source. -/
def getValidTilePlacements (b : Board) (_color : Color) : List Hex :=
  let candidates :=
    b.foldl (fun acc kc =>
      (getNeighborHexes kc.1).foldl (fun acc2 n =>
        if hasCell b n then acc2 else if n ∈ acc2 then acc2 else acc2 ++ [n]) acc) []
  candidates.filter (fun h => isValidTilePlacement b h)

/-- `HexGrid.isValidPiecePlacement`: an existing empty tile of the same color. -/
def isValidPiecePlacement (b : Board) (h : Hex) (pieceColor : Color) : Bool :=
  match getCell b h with
  | none => false
  | some cell => cell.color = pieceColor ∧ cell.piece = none

/-- `HexGrid.getValidPiecePlacements`. -/
def getValidPiecePlacements (b : Board) (pieceColor : Color) : List Hex :=
  (b.filter (fun kc => kc.2.color = pieceColor ∧ kc.2.piece = none)).map (fun kc => kc.1)

/-! ## Disc moves (`getValidDiscMoves` and the recursive jump search) -/

/-- The simple adjacent steps of a disc: neighbour coordinates holding an
empty tile (the first loop of `HexGrid.getValidDiscMoves`). -/
def discSimpleSteps (b : Board) (h : Hex) : List Hex :=
  (getNeighborHexes h).filter (fun n =>
    match getCell b n with
    | some nc => nc.piece.isNone
    | none => false)

/-- The recursive jump search `HexGrid._findJumpMoves`. `dirs` is the list
of directions still to try at the current position, `vis` the visited set,
`val` the accumulated valid-move set (both insertion-ordered, as JS Sets
are). One unit of fuel is consumed per step; with enough fuel the search
is exhaustive exactly as the JS recursion is. -/
def findJumpGo (b : Board) : Nat → Hex → List Hex → List Hex → List Hex → List Hex × List Hex
  | 0, _, _, vis, val => (vis, val)
  | fuel + 1, x, dirs, vis, val =>
    match dirs with
    | [] => (vis, val)
    | dir :: rest =>
      let jumpedHex := x.add dir
      let landingHex := jumpedHex.add dir
      let acc : List Hex × List Hex :=
        match getCell b jumpedHex with
        | some jumpedCell =>
          if jumpedCell.piece.isSome then
            match getCell b landingHex with
            | some landingCell =>
              if landingCell.piece.isNone ∧ landingHex ∉ vis then
                findJumpGo b fuel landingHex hexDirections (vis ++ [landingHex]) (val ++ [landingHex])
              else (vis, val)
            | none => (vis, val)
          else (vis, val)
        | none => (vis, val)
      findJumpGo b fuel x rest acc.1 acc.2

/-- `HexGrid.getValidDiscMoves`: simple steps plus all jump-chain landings. -/
def getValidDiscMoves (b : Board) (h : Hex) : List Hex :=
  match getCell b h with
  | none => []
  | some cell =>
    match cell.piece with
    | none => []
    | some piece =>
      if piece.type = PieceType.disc then
        (findJumpGo b (7 * (b.length + 1)) h hexDirections [h] (discSimpleSteps b h)).2
      else []

/-- `HexGrid.getValidRingMoves`: the six coordinates two steps away in a
straight direction that hold a tile which is empty or enemy-occupied. -/
def getValidRingMoves (b : Board) (h : Hex) : List Hex :=
  match getCell b h with
  | none => []
  | some cell =>
    match cell.piece with
    | none => []
    | some piece =>
      if piece.type = PieceType.ring then
        hexDirections.foldl (fun acc dir =>
          let landingHex := (h.add dir).add dir
          match getCell b landingHex with
          | some landingCell =>
            match landingCell.piece with
            | none => acc ++ [landingHex]
            | some p => if p.color ≠ piece.color then acc ++ [landingHex] else acc
          | none => acc) []
      else []

/-! ## The jumped-over path (`HexGrid.getJumpedHexes`) -/

/-- JS `Math.round (a / b)` for integer `a` and positive integer `b`:
round half toward positive infinity. -/
def jsRoundDiv (a b : Int) : Int := (2 * a + b).fdiv (2 * b)

/-- The walk of `getJumpedHexes`: keep adding the direction until the
destination is reached, collecting strictly intermediate hexes; fuelled
(the JS loop runs forever on a direction that never reaches `toHex`). -/
def jumpedWalk (toHex dir : Hex) : Nat → Hex → List Hex
  | 0, _ => []
  | fuel + 1, cur =>
    let nxt := cur.add dir
    if nxt = toHex then [] else nxt :: jumpedWalk toHex dir fuel nxt

/-- `HexGrid.getJumpedHexes`. -/
def getJumpedHexes (fromHex toHex : Hex) : List Hex :=
  let dist := fromHex.distance toHex
  if dist = 0 then []
  else
    let dir : Hex := ⟨jsRoundDiv (toHex.q - fromHex.q) dist, jsRoundDiv (toHex.r - fromHex.r) dist⟩
    jumpedWalk toHex dir dist fromHex

/-! ## Engine state (`GameState.js`) -/

/-- A tile pool: `{total, placed}`. -/
structure TilePool where
  total : Int
  placed : Int
deriving DecidableEq, Repr

/-- A disc or ring pool: `{total, placed, captured}`. -/
structure PiecePool where
  total : Int
  placed : Int
  captured : Int
deriving DecidableEq, Repr

/-- Per-player resources. -/
structure PlayerData where
  tiles : TilePool
  discs : PiecePool
  rings : PiecePool
deriving DecidableEq, Repr

/-- The `players` record with both colors. -/
structure Players where
  black : PlayerData
  white : PlayerData
deriving DecidableEq, Repr

/-- Read one player's data. -/
def getPlayer (ps : Players) : Color → PlayerData
  | Color.black => ps.black
  | Color.white => ps.white

/-- Replace one player's data. -/
def setPlayer (ps : Players) : Color → PlayerData → Players
  | Color.black, pd => { ps with black := pd }
  | Color.white, pd => { ps with white := pd }

/-- The opponent of a color (`GameState.getOpponent`). -/
def opponent : Color → Color
  | Color.black => Color.white
  | Color.white => Color.black

/-- The four player actions. -/
inductive PlayerAction where
  | placeTile
  | placeDisc
  | placeRing
  | movePiece
deriving DecidableEq, Repr

/-- One entry of the `history` array pushed by `saveToHistory`: the grid
entries, the player to move and a copy of the resource pools. -/
structure Snapshot where
  grid : Board
  currentPlayer : Color
  players : Players
deriving DecidableEq, Repr

/-- Key-ordered copy of the board, used for the canonical position key.
The source sorts the entries by their hash strings; any fixed total order
on the (unique) keys yields the same canonical form, and we order by
(q, r) lexicographically. -/
def hexKeyLe (a b : Hex) : Bool :=
  a.q < b.q ∨ (a.q = b.q ∧ a.r ≤ b.r)

/-- Insert one entry into a key-sorted board. -/
def insertCellSorted (e : Hex × Cell) : Board → Board
  | [] => [e]
  | f :: rest => if hexKeyLe e.1 f.1 then e :: f :: rest else f :: insertCellSorted e rest

/-- Sort board entries by key. -/
def sortCells : Board → Board
  | [] => []
  | e :: rest => insertCellSorted e (sortCells rest)

/-- The canonical position signature of `GameState.getPositionKey`:
the sorted cell entries plus the player to move. -/
structure PositionKey where
  cells : Board
  currentPlayer : Color
deriving DecidableEq, Repr

/-- The repetition counter map `positionCounts`. -/
abbrev PosCounts := List (PositionKey × Nat)

/-- Lookup in `positionCounts` with default 0 (`positionCounts.get(key) || 0`). -/
def countsGet (m : PosCounts) (k : PositionKey) : Nat :=
  match m with
  | [] => 0
  | (k', n) :: rest => if k' = k then n else countsGet rest k

/-- `positionCounts.set(key, n)`. -/
def countsSet (m : PosCounts) (k : PositionKey) (n : Nat) : PosCounts :=
  match m with
  | [] => [(k, n)]
  | (k', n') :: rest => if k' = k then (k, n) :: rest else (k', n') :: countsSet rest k n

/-- The mutable state of class `GameState`. -/
structure GameState where
  grid : Board
  players : Players
  currentPlayer : Color
  selectedAction : Option PlayerAction
  selectedHex : Option Hex
  validMoves : List Hex
  gameOver : Bool
  winner : Option Color
  message : String
  canContinueJumping : Bool
  lastJumpedPiece : Option Hex
  history : List Snapshot
  positionCounts : PosCounts
deriving DecidableEq, Repr

/-- `GameState.getPositionKey`. -/
def getPositionKey (s : GameState) : PositionKey :=
  ⟨sortCells s.grid, s.currentPlayer⟩

/-- The signature a history snapshot contributes to the log. -/
def snapKey (sn : Snapshot) : PositionKey :=
  ⟨sortCells sn.grid, sn.currentPlayer⟩

/-- `GameState.endGame`. -/
def endGame (s : GameState) (w : Option Color) (m : String) : GameState :=
  { s with gameOver := true, winner := w, message := m }

/-- `GameState.saveToHistory`: push a snapshot, bump the repetition count
of the current signature, and declare a threefold-repetition draw when
that count reaches 3. -/
def saveToHistory (s : GameState) : GameState :=
  let snap : Snapshot := ⟨s.grid, s.currentPlayer, s.players⟩
  let key := getPositionKey s
  let count := countsGet s.positionCounts key
  let s1 := { s with history := s.history ++ [snap],
                     positionCounts := countsSet s.positionCounts key (count + 1) }
  if count + 1 ≥ 3 then
    endGame s1 none "Game ended in a draw due to threefold repetition."
  else s1

/-- Does the board hold any piece of this color? (the loop inside
`GameState.checkWinConditions`). -/
def boardHasPiece (b : Board) (c : Color) : Bool :=
  b.any (fun kc =>
    match kc.2.piece with
    | some p => p.color = c
    | none => false)

/-- The disjunction of the three win conditions of
`GameState.checkWinConditions`, as a predicate on the state. -/
def checkWinHolds (s : GameState) : Bool :=
  let opp := opponent s.currentPlayer
  (getPlayer s.players opp).discs.total ≤ 0
  || (getPlayer s.players opp).rings.total ≤ 0
  || ¬ boardHasPiece s.grid opp

/-- `GameState.checkWinConditions`: the acting player wins if the opponent
has no disc total, no ring total, or no piece on the board, in that order. -/
def checkWinConditions (s : GameState) : GameState :=
  let opp := opponent s.currentPlayer
  if (getPlayer s.players opp).discs.total ≤ 0 then
    endGame s (some s.currentPlayer) "Win by capturing all opponent discs."
  else if (getPlayer s.players opp).rings.total ≤ 0 then
    endGame s (some s.currentPlayer) "Win by capturing all opponent rings."
  else if ¬ boardHasPiece s.grid opp then
    endGame s (some s.currentPlayer) "Win by removing all opponent pieces from the board."
  else s

/-- `GameState.hasValidMoves`: can the current player place a tile, place
a disc, place a ring, or move any piece? -/
def hasValidMovesB (s : GameState) : Bool :=
  let pd := getPlayer s.players s.currentPlayer
  (if pd.tiles.placed < pd.tiles.total then
      !(getValidTilePlacements s.grid s.currentPlayer).isEmpty
    else false)
  || (if pd.discs.placed < pd.discs.total then
        !(getValidPiecePlacements s.grid s.currentPlayer).isEmpty
      else false)
  || (if pd.rings.placed < pd.rings.total ∧ pd.discs.captured > 0 then
        !(getValidPiecePlacements s.grid s.currentPlayer).isEmpty
      else false)
  || s.grid.any (fun kc =>
      match kc.2.piece with
      | some p =>
        if p.color = s.currentPlayer then
          match p.type with
          | PieceType.disc => !(getValidDiscMoves s.grid kc.1).isEmpty
          | PieceType.ring => !(getValidRingMoves s.grid kc.1).isEmpty
        else false
      | none => false)

/-- `GameState.switchPlayer`: switch the current player, clear the
selection, and if the new current player has no valid moves end the game
with the opponent of the new current player (the player who just moved)
as the winner. -/
def switchPlayer (s : GameState) : GameState :=
  let s1 := { s with currentPlayer := opponent s.currentPlayer,
                     message := "Next players turn.",
                     selectedAction := none, selectedHex := none, validMoves := [] }
  if ¬ hasValidMovesB s1 then
    endGame s1 (some (opponent s1.currentPlayer)) "Win because the opponent has no valid moves."
  else s1

/-- The turn-completion sequence the source inlines at every call site:
save to history, check win conditions, and switch players unless the game
has ended. -/
def finishTurn (s : GameState) : GameState :=
  let s1 := saveToHistory s
  let s2 := checkWinConditions s1
  if s2.gameOver then s2 else switchPlayer s2

/-- `GameState.placeTile`. -/
def placeTile (s : GameState) (hex : Hex) : GameState :=
  let pd := getPlayer s.players s.currentPlayer
  { s with grid := setCell s.grid hex ⟨s.currentPlayer, none⟩,
           players := setPlayer s.players s.currentPlayer
             { pd with tiles := { pd.tiles with placed := pd.tiles.placed + 1 } },
           message := "Placed a tile." }

/-- `GameState.placeDisc` (the source assumes the cell exists; a missing
cell would crash JS and is left unchanged here). -/
def placeDisc (s : GameState) (hex : Hex) : GameState :=
  match getCell s.grid hex with
  | none => s
  | some cell =>
    let pd := getPlayer s.players s.currentPlayer
    { s with grid := setCell s.grid hex { cell with piece := some ⟨PieceType.disc, s.currentPlayer⟩ },
             players := setPlayer s.players s.currentPlayer
               { pd with discs := { pd.discs with placed := pd.discs.placed + 1 } },
             message := "Placed a disc." }

/-- `GameState.placeRing`: place the ring, decrement the acting player's
captured discs, and return one disc to the opponent's total. -/
def placeRing (s : GameState) (hex : Hex) : GameState :=
  match getCell s.grid hex with
  | none => s
  | some cell =>
    let pd := getPlayer s.players s.currentPlayer
    let od := getPlayer s.players (opponent s.currentPlayer)
    let ps1 := setPlayer s.players s.currentPlayer
      { pd with rings := { pd.rings with placed := pd.rings.placed + 1 },
                discs := { pd.discs with captured := pd.discs.captured - 1 } }
    let ps2 := setPlayer ps1 (opponent s.currentPlayer)
      { od with discs := { od.discs with total := od.discs.total + 1 } }
    { s with grid := setCell s.grid hex { cell with piece := some ⟨PieceType.ring, s.currentPlayer⟩ },
             players := ps2,
             message := "Placed a ring and returned a captured disc." }

/-- One step of the capture loop inside `GameState.movePiece`: if the
jumped hex holds a piece of the other color, remove it and move one unit
from the victims total to the captors captured pool. -/
def captureJumped (pieceColor : Color) (acc : GameState × Bool) (jh : Hex) : GameState × Bool :=
  let s := acc.1
  match getCell s.grid jh with
  | some jc =>
    match jc.piece with
    | some jp =>
      if jp.color ≠ pieceColor then
        let cur := s.currentPlayer
        let pd := getPlayer s.players cur
        let od := getPlayer s.players (opponent cur)
        let ps' :=
          match jp.type with
          | PieceType.disc =>
            setPlayer (setPlayer s.players cur
              { pd with discs := { pd.discs with captured := pd.discs.captured + 1 } })
              (opponent cur)
              { od with discs := { od.discs with total := od.discs.total - 1 } }
          | PieceType.ring =>
            setPlayer (setPlayer s.players cur
              { pd with rings := { pd.rings with captured := pd.rings.captured + 1 } })
              (opponent cur)
              { od with rings := { od.rings with total := od.rings.total - 1 } }
        ({ s with players := ps', grid := setCell s.grid jh { jc with piece := none } }, true)
      else acc
    | none => acc
  | none => acc

/-- The ring-landing capture inside `GameState.movePiece`: landing on an
occupied cell captures the piece there (the cell itself is overwritten by
the ring right after). -/
def captureAtLanding (s : GameState) (capturedPiece : Piece) : GameState :=
  let cur := s.currentPlayer
  let pd := getPlayer s.players cur
  let od := getPlayer s.players (opponent cur)
  let ps' :=
    match capturedPiece.type with
    | PieceType.disc =>
      setPlayer (setPlayer s.players cur
        { pd with discs := { pd.discs with captured := pd.discs.captured + 1 } })
        (opponent cur)
        { od with discs := { od.discs with total := od.discs.total - 1 } }
    | PieceType.ring =>
      setPlayer (setPlayer s.players cur
        { pd with rings := { pd.rings with captured := pd.rings.captured + 1 } })
        (opponent cur)
        { od with rings := { od.rings with total := od.rings.total - 1 } }
  { s with players := ps' }

/-- The capture phase of `GameState.movePiece`: captures along the jumped
path for a disc jump of distance greater than 1, or at the destination
for a ring landing on an occupied cell; the boolean is the
`capturedPieces` flag (set only by disc-jump captures, as in the source).
-/
def movePieceCaptures (s : GameState) (piece : Piece) (fromHex toHex : Hex) (toCell : Cell) :
    GameState × Bool :=
  if piece.type = PieceType.disc ∧ fromHex.distance toHex > 1 then
    (getJumpedHexes fromHex toHex).foldl (captureJumped piece.color) (s, false)
  else if piece.type = PieceType.ring then
    match toCell.piece with
    | some capturedPiece => (captureAtLanding s capturedPiece, false)
    | none => (s, false)
  else (s, false)

/-- The final phase of `GameState.movePiece`: if this was a capturing
disc move with further jumps available, flag the pending continuation and
return without completing the turn; otherwise clear the continuation
flags and complete the turn. -/
def movePieceFinish (s2 : GameState) (piece : Piece) (toHex : Hex) (captured : Bool) :
    GameState :=
  if piece.type = PieceType.disc ∧ captured then
    let additionalJumps := (getValidDiscMoves s2.grid toHex).filter (fun m => toHex.distance m > 1)
    if ¬ additionalJumps.isEmpty then
      { s2 with canContinueJumping := true, lastJumpedPiece := some toHex,
                message := "Additional jumps available." }
    else finishTurn { s2 with canContinueJumping := false, lastJumpedPiece := none }
  else finishTurn { s2 with canContinueJumping := false, lastJumpedPiece := none }

/-- `GameState.movePiece`: captures along the jumped path (disc jumps) or
at the destination (ring landings), moves the piece, and either flags a
pending multi-jump continuation or completes the turn. A missing source
or destination cell would crash the JS and leaves the state unchanged
here (callers only pass validated moves). -/
def movePiece (s : GameState) (fromHex toHex : Hex) : GameState :=
  match getCell s.grid fromHex, getCell s.grid toHex with
  | some fromCell, some toCell =>
    match fromCell.piece with
    | some piece =>
      let sc := movePieceCaptures s piece fromHex toHex toCell
      let grid2 := setCell (setCell sc.1.grid fromHex { fromCell with piece := none })
                      toHex { toCell with piece := some piece }
      movePieceFinish { sc.1 with grid := grid2 } piece toHex sc.2
    | none => s
  | _, _ => s

/-- The final auto-cancel check of `GameState.selectAction`: a placement
action with an empty destination set is cancelled back to no action. -/
def autoCancelEmpty (s : GameState) : GameState :=
  if s.validMoves.isEmpty ∧ s.selectedAction ≠ some PlayerAction.movePiece then
    { s with message := "No valid positions for the selected action.", selectedAction := none }
  else s

/-- `GameState.selectAction`. -/
def selectAction (s : GameState) (action : PlayerAction) : GameState :=
  if s.gameOver then s
  else
    let s0 := { s with selectedAction := some action, selectedHex := none, validMoves := [] }
    match action with
    | PlayerAction.placeTile =>
      let pd := getPlayer s0.players s0.currentPlayer
      if pd.tiles.placed ≥ pd.tiles.total then
        { s0 with message := "No more tiles available to place.", selectedAction := none }
      else
        autoCancelEmpty { s0 with validMoves := getValidTilePlacements s0.grid s0.currentPlayer,
                                  message := "Select a position to place a tile." }
    | PlayerAction.placeDisc =>
      let pd := getPlayer s0.players s0.currentPlayer
      if pd.discs.placed ≥ pd.discs.total then
        { s0 with message := "No more discs available to place.", selectedAction := none }
      else
        autoCancelEmpty { s0 with validMoves := getValidPiecePlacements s0.grid s0.currentPlayer,
                                  message := "Select a tile to place a disc." }
    | PlayerAction.placeRing =>
      let pd := getPlayer s0.players s0.currentPlayer
      if pd.rings.placed ≥ pd.rings.total then
        { s0 with message := "No more rings available to place.", selectedAction := none }
      else if pd.discs.captured ≤ 0 then
        { s0 with message := "You need captured discs to place a ring.", selectedAction := none }
      else
        autoCancelEmpty { s0 with validMoves := getValidPiecePlacements s0.grid s0.currentPlayer,
                                  message := "Select a tile to place a ring." }
    | PlayerAction.movePiece =>
      { s0 with message := "Select a piece to move." }

/-- `GameState.selectHex`: the single click entry point, dispatching on
the machine state. -/
def selectHex (s : GameState) (hex : Hex) : GameState :=
  if s.gameOver then s
  else if s.selectedAction = none then { s with message := "Select an action first." }
  else if s.selectedAction = some PlayerAction.movePiece ∧ s.selectedHex = none then
    match getCell s.grid hex with
    | none => { s with message := "Select one of your pieces to move." }
    | some cell =>
      match cell.piece with
      | none => { s with message := "Select one of your pieces to move." }
      | some piece =>
        if piece.color ≠ s.currentPlayer then
          { s with message := "Select one of your pieces to move." }
        else if s.canContinueJumping ∧ s.lastJumpedPiece ≠ some hex then
          finishTurn { s with canContinueJumping := false, lastJumpedPiece := none }
        else
          let moves :=
            match piece.type with
            | PieceType.disc =>
              let ms := getValidDiscMoves s.grid hex
              if s.canContinueJumping then ms.filter (fun m => hex.distance m > 1) else ms
            | PieceType.ring => getValidRingMoves s.grid hex
          if moves.isEmpty then
            { s with message := "This piece has no valid moves.",
                     selectedHex := none, validMoves := moves }
          else
            { s with selectedHex := some hex, validMoves := moves,
                     message := "Select a destination for the piece." }
  else
    if hex ∉ s.validMoves then { s with message := "Invalid move. Try again." }
    else
      let s1 :=
        match s.selectedAction with
        | some PlayerAction.placeTile => finishTurn (placeTile s hex)
        | some PlayerAction.placeDisc => finishTurn (placeDisc s hex)
        | some PlayerAction.placeRing => finishTurn (placeRing s hex)
        | some PlayerAction.movePiece =>
          match s.selectedHex with
          | some src => movePiece s src hex
          | none => s
        | none => s
      if ¬ s1.canContinueJumping then
        { s1 with selectedHex := none, selectedAction := none, validMoves := [] }
      else
        { s1 with selectedHex := some hex,
                  validMoves := (getValidDiscMoves s1.grid hex).filter (fun m => hex.distance m > 1) }

/-! ## The stateless rules layer (`GameRules.js`) -/

/-- The result record of `GameRules.checkWinCondition` (message omitted). -/
structure WinResult where
  hasWon : Bool
  winner : Option Color
deriving DecidableEq, Repr

/-- The result record of `GameRules.checkDrawCondition` (message omitted). -/
structure DrawResult where
  isDraw : Bool
deriving DecidableEq, Repr

namespace GameRules

/-- `GameRules.checkWinCondition`: both players pools and board presence
are checked, black first inside each pair. -/
def checkWinCondition (s : GameState) : WinResult :=
  if s.players.black.discs.total ≤ 0 then ⟨true, some Color.white⟩
  else if s.players.white.discs.total ≤ 0 then ⟨true, some Color.black⟩
  else if s.players.black.rings.total ≤ 0 then ⟨true, some Color.white⟩
  else if s.players.white.rings.total ≤ 0 then ⟨true, some Color.black⟩
  else if ¬ boardHasPiece s.grid Color.black then ⟨true, some Color.white⟩
  else if ¬ boardHasPiece s.grid Color.white then ⟨true, some Color.black⟩
  else ⟨false, none⟩

/-- `GameRules.checkDrawCondition`: threefold repetition of the current
signature, or no valid move for the current player. -/
def checkDrawCondition (s : GameState) : DrawResult :=
  if countsGet s.positionCounts (getPositionKey s) ≥ 3 then ⟨true⟩
  else if ¬ hasValidMovesB s then ⟨true⟩
  else ⟨false⟩

end GameRules

/-! ## Dynamic execution of a disc jump chain

The jump search above works on a fixed board snapshot.  The following
executable semantics describes what actually happens when the jumps of a
chain are played in order: the disc moves, and each enemy piece jumped
over is removed before the next jump is attempted.  The soundness theorem
for `getValidDiscMoves` relates the two. -/

/-- Set or clear the piece of an existing cell (no-op on a missing cell). -/
def setPieceAt (b : Board) (h : Hex) (p? : Option Piece) : Board :=
  match getCell b h with
  | some c => setCell b h { c with piece := p? }
  | none => b

/-- Execute one single jump of the disc `p` sitting at `x` in direction
`d`: the adjacent coordinate must hold a piece, the coordinate one step
further must hold a tile with no piece; an enemy piece jumped over is
captured (removed), the disc moves from `x` to the landing hex. -/
def execJump (b : Board) (p : Piece) (x d : Hex) : Option (Board × Hex) :=
  if d ∈ hexDirections then
    let m := x.add d
    let l := m.add d
    match getCell b m, getCell b l with
    | some mc, some lc =>
      match mc.piece with
      | some mp =>
        if lc.piece = none then
          let b1 := if mp.color ≠ p.color then setPieceAt b m none else b
          let b2 := setPieceAt b1 x none
          let b3 := setPieceAt b2 l (some p)
          some (b3, l)
        else none
      | none => none
    | _, _ => none
  else none

/-- Execute a chain of jumps in order, each on the board left by the
preceding ones. -/
def execChain (b : Board) (p : Piece) (x : Hex) : List Hex → Option (Board × Hex)
  | [] => some (b, x)
  | d :: ds =>
    match execJump b p x d with
    | some bx => execChain bx.1 p bx.2 ds
    | none => none

/-- The positions the disc occupies along a chain starting at `h`
(including `h` itself). -/
def chainNodes (h : Hex) : List Hex → List Hex
  | [] => [h]
  | d :: ds => h :: chainNodes (h.add (d.add d)) ds

/-- The landing coordinates of a chain (the positions after each jump). -/
def chainLandings (h : Hex) : List Hex → List Hex
  | [] => []
  | d :: ds => (h.add (d.add d)) :: chainLandings (h.add (d.add d)) ds

/-- The coordinates jumped over along a chain. -/
def chainMids (h : Hex) : List Hex → List Hex
  | [] => []
  | d :: ds => (h.add d) :: chainMids (h.add (d.add d)) ds

/-- The final position of a chain. -/
def chainEnd (h : Hex) : List Hex → Hex
  | [] => h
  | d :: ds => chainEnd (h.add (d.add d)) ds

/-- `l` is reachable from `h` by a nonempty sequence of single jumps that
are actually executable in order, through pairwise distinct landing
coordinates. -/
def JumpReachable (b : Board) (p : Piece) (h l : Hex) : Prop :=
  ∃ ds bC, ds ≠ [] ∧ execChain b p h ds = some (bC, l) ∧ (chainLandings h ds).Nodup

/-! ## Concrete scenario states -/

/-- Scenario E of the specification: a fabricated stalemate position.
Black is about to complete a turn; white has exhausted every supply and
whites only piece, the disc at (1,0), has no step and no jump. -/
def stalemateState : GameState := {
  grid := [(⟨0, 0⟩, ⟨Color.black, some ⟨PieceType.disc, Color.black⟩⟩),
           (⟨1, 0⟩, ⟨Color.white, some ⟨PieceType.disc, Color.white⟩⟩)]
  players := {
    black := { tiles := ⟨9, 2⟩, discs := ⟨6, 1, 0⟩, rings := ⟨3, 0, 0⟩ }
    white := { tiles := ⟨9, 9⟩, discs := ⟨6, 6, 0⟩, rings := ⟨3, 3, 0⟩ } }
  currentPlayer := Color.black
  selectedAction := none
  selectedHex := none
  validMoves := []
  gameOver := false
  winner := none
  message := ""
  canContinueJumping := false
  lastJumpedPiece := none
  history := []
  positionCounts := [] }

/-- C1: in the fabricated stalemate position the player switch hands the
turn to white, who has zero legal moves across all four action types; the
engine then ends the game with a WIN for black (the player who just
moved), not with a draw.  The specification, `GameRules.checkDrawCondition`
and the in-game rules text all call this position a draw, so the win is a
defect of `GameState.switchPlayer`. -/
theorem stalemate_is_scored_as_win_not_draw :
    hasValidMovesB { stalemateState with currentPlayer := Color.white } = false
    ∧ (switchPlayer stalemateState).gameOver = true
    ∧ (switchPlayer stalemateState).winner = some Color.black := by
  refine ⟨by decide, by decide, by decide⟩

/-- C2: on the stalemate position the two rule layers disagree.  The
engine (via `switchPlayer`) declares a win for black, while the stateless
`GameRules` layer declares no winner and a draw for the very same state.
-/
theorem rules_layers_disagree_on_stalemate :
    (switchPlayer stalemateState).gameOver = true
    ∧ (switchPlayer stalemateState).winner = some Color.black
    ∧ (GameRules.checkWinCondition (switchPlayer stalemateState)).hasWon = false
    ∧ (GameRules.checkDrawCondition (switchPlayer stalemateState)).isDraw = true := by
  refine ⟨by decide, by decide, by decide, by decide⟩

/-! ## Tile placement characterisation (C8) -/

/-- C8: `isValidTilePlacement` holds exactly when no cell exists at the
coordinate and at least 2 of its 6 neighbour coordinates hold tiles. -/
theorem isValidTilePlacement_iff (b : Board) (h : Hex) :
    isValidTilePlacement b h = true ↔
      getCell b h = none
      ∧ 2 ≤ ((getNeighborHexes h).filter (fun n => hasCell b n)).length := by
  unfold isValidTilePlacement hasCell
  cases hc : getCell b h <;> simp [hc, hasCell]

/-! ## Hash round trip (C10) -/

theorem digitChar_ne_special (d : Nat) : digitChar d ≠ ',' ∧ digitChar d ≠ '-' := by
  unfold digitChar
  split_ifs <;> exact ⟨by decide, by decide⟩

theorem digitVal_digitChar (d : Nat) (hd : d < 10) : digitVal (digitChar d) = d := by
  interval_cases d <;> decide

theorem mem_natCharsAux_ne_special :
    ∀ fuel n c, c ∈ natCharsAux fuel n → c ≠ ',' ∧ c ≠ '-' := by
  intro fuel
  induction fuel with
  | zero => intro n c hc; simp [natCharsAux] at hc
  | succ fuel ih =>
    intro n c hc
    by_cases hn : n = 0
    · simp [natCharsAux, hn] at hc
    · simp [natCharsAux, hn, List.mem_append] at hc
      rcases hc with hc | hc
      · exact ih _ _ hc
      · subst hc; exact digitChar_ne_special _

theorem mem_natChars_ne_special (n : Nat) (c : Char) (hc : c ∈ natChars n) :
    c ≠ ',' ∧ c ≠ '-' := by
  unfold natChars at hc
  by_cases hn : n = 0
  · simp [hn] at hc; subst hc; exact ⟨by decide, by decide⟩
  · simp [hn] at hc; exact mem_natCharsAux_ne_special _ _ _ hc

theorem mem_intChars_ne_comma (i : Int) (c : Char) (hc : c ∈ intChars i) : c ≠ ',' := by
  unfold intChars at hc
  by_cases hi : i < 0
  · simp [hi] at hc
    rcases hc with hc | hc
    · subst hc; decide
    · exact (mem_natChars_ne_special _ _ hc).1
  · simp [hi] at hc
    exact (mem_natChars_ne_special _ _ hc).1

theorem parseNatChars_append_digit (xs : List Char) (c : Char) :
    parseNatChars (xs ++ [c]) = parseNatChars xs * 10 + digitVal c := by
  unfold parseNatChars
  rw [List.foldl_append]
  rfl

theorem parseNatChars_natCharsAux :
    ∀ fuel n, n ≤ fuel → parseNatChars (natCharsAux fuel n) = n := by
  intro fuel
  induction fuel with
  | zero =>
    intro n hn
    interval_cases n
    rfl
  | succ fuel ih =>
    intro n hn
    by_cases h0 : n = 0
    · subst h0; rfl
    · have hdiv : n / 10 ≤ fuel := by
        have := Nat.div_lt_self (Nat.pos_of_ne_zero h0) (by norm_num : 1 < 10)
        omega
      rw [show natCharsAux (fuel + 1) n
            = natCharsAux fuel (n / 10) ++ [digitChar (n % 10)] by
            simp [natCharsAux, h0]]
      rw [parseNatChars_append_digit, ih _ hdiv,
          digitVal_digitChar _ (Nat.mod_lt _ (by norm_num))]
      omega

theorem parseNatChars_natChars (n : Nat) : parseNatChars (natChars n) = n := by
  unfold natChars
  by_cases h0 : n = 0
  · subst h0; rfl
  · simp only [h0, if_false]
    exact parseNatChars_natCharsAux n n le_rfl

theorem natChars_ne_nil (n : Nat) : natChars n ≠ [] := by
  unfold natChars
  by_cases h0 : n = 0
  · simp [h0]
  · simp only [h0, if_false]
    obtain ⟨fuel, hfuel⟩ : ∃ fuel, n = fuel + 1 := ⟨n - 1, by omega⟩
    rw [hfuel]
    simp [natCharsAux, show fuel + 1 ≠ 0 by omega]

theorem parseIntChars_dash (l : List Char) :
    parseIntChars ('-' :: l) = -(parseNatChars l : Int) := by
  simp [parseIntChars]

theorem parseIntChars_cons_of_ne (c : Char) (l : List Char) (h : c ≠ '-') :
    parseIntChars (c :: l) = (parseNatChars (c :: l) : Int) := by
  simp [parseIntChars, h]

theorem parseIntChars_intChars (i : Int) : parseIntChars (intChars i) = i := by
  unfold intChars
  by_cases hi : i < 0
  · simp only [hi, if_true]
    rw [parseIntChars_dash, parseNatChars_natChars]
    omega
  · simp only [hi, if_false]
    obtain ⟨c, rest, hcr⟩ : ∃ c rest, natChars i.natAbs = c :: rest := by
      cases h : natChars i.natAbs with
      | nil => exact absurd h (natChars_ne_nil _)
      | cons c rest => exact ⟨c, rest, rfl⟩
    have hcne : c ≠ '-' := by
      have : c ∈ natChars i.natAbs := by rw [hcr]; exact List.mem_cons_self _ _
      exact (mem_natChars_ne_special _ _ this).2
    rw [hcr, parseIntChars_cons_of_ne _ _ hcne, ← hcr, parseNatChars_natChars]
    omega

theorem takeWhile_append_comma (a b : List Char) (ha : ∀ c ∈ a, c ≠ ',') :
    (a ++ ',' :: b).takeWhile (fun c => ¬ c = ',') = a := by
  induction a with
  | nil => simp
  | cons x a ih =>
    have hx : x ≠ ',' := ha x (List.mem_cons_self _ _)
    rw [List.cons_append, List.takeWhile_cons_of_pos (by simp [hx]),
        ih (fun c hc => ha c (List.mem_cons_of_mem _ hc))]

theorem dropWhile_append_comma (a b : List Char) (ha : ∀ c ∈ a, c ≠ ',') :
    (a ++ ',' :: b).dropWhile (fun c => ¬ c = ',') = ',' :: b := by
  induction a with
  | nil => simp
  | cons x a ih =>
    have hx : x ≠ ',' := ha x (List.mem_cons_self _ _)
    rw [List.cons_append, List.dropWhile_cons_of_pos (by simp [hx]),
        ih (fun c hc => ha c (List.mem_cons_of_mem _ hc))]

/-- C10: parsing the canonical hash of a hex returns the same hex, so the
string keys of the board map are in bijection with the integer axial
coordinates. -/
theorem fromHash_hash_roundtrip :
    (∀ h : Hex, Hex.fromHash (Hex.hash h) = h)
    ∧ ∀ h1 h2 : Hex, Hex.hash h1 = Hex.hash h2 → h1 = h2 := by
  have main : ∀ h : Hex, Hex.fromHash (Hex.hash h) = h := by
    intro h
    unfold Hex.hash Hex.fromHash
    have hq := mem_intChars_ne_comma h.q
    show Hex.mk _ _ = h
    rw [show (String.mk (intChars h.q ++ ',' :: intChars h.r)).data
          = intChars h.q ++ ',' :: intChars h.r from rfl]
    rw [takeWhile_append_comma _ _ hq, dropWhile_append_comma _ _ hq]
    simp [parseIntChars_intChars]
  refine ⟨main, fun h1 h2 heq => ?_⟩
  have := main h1
  rw [heq, main h2] at this
  exact this.symm

/-! ## Supporting lemmas for the jump-chain soundness theorem (C3) -/

theorem Hex.add_assoc (a b c : Hex) : (a.add b).add c = a.add (b.add c) := by
  simp [Hex.add]; constructor <;> ring

theorem getCell_setCell_self (b : Board) (h : Hex) (c : Cell) :
    getCell (setCell b h c) h = some c := by
  induction b with
  | nil => simp [setCell, getCell]
  | cons e rest ih =>
    obtain ⟨k, c'⟩ := e
    by_cases hk : k = h
    · simp [setCell, hk, getCell]
    · simp [setCell, hk, getCell, ih]

theorem getCell_setCell_ne (b : Board) (h y : Hex) (c : Cell) (hne : y ≠ h) :
    getCell (setCell b h c) y = getCell b y := by
  have hne' : ¬ h = y := fun he => hne he.symm
  induction b with
  | nil =>
    simp only [setCell, getCell]
    rw [if_neg hne']
  | cons e rest ih =>
    obtain ⟨k, c'⟩ := e
    by_cases hk : k = h
    · subst hk
      simp only [setCell, if_pos rfl, getCell]
      rw [if_neg hne', if_neg hne']
    · simp only [setCell, if_neg hk, getCell]
      by_cases hky : k = y
      · rw [if_pos hky, if_pos hky]
      · rw [if_neg hky, if_neg hky, ih]

theorem getCell_setPieceAt_ne (b : Board) (h y : Hex) (p? : Option Piece) (hne : y ≠ h) :
    getCell (setPieceAt b h p?) y = getCell b y := by
  unfold setPieceAt
  cases hc : getCell b h
  · rfl
  · exact getCell_setCell_ne _ _ _ _ hne

/-- Both coordinate differences even: the two hexes lie on the same coset
of the doubled lattice. -/
def evenDiff (a b : Hex) : Prop :=
  (2 : Int) ∣ (a.q - b.q) ∧ (2 : Int) ∣ (a.r - b.r)

theorem evenDiff_refl (a : Hex) : evenDiff a a := ⟨by omega, by omega⟩

theorem evenDiff_trans {a b c : Hex} (h1 : evenDiff a b) (h2 : evenDiff b c) :
    evenDiff a c := by
  obtain ⟨h1q, h1r⟩ := h1; obtain ⟨h2q, h2r⟩ := h2
  exact ⟨by omega, by omega⟩

theorem evenDiff_double_step (h d : Hex) : evenDiff (h.add (d.add d)) h := by
  simp [evenDiff, Hex.add]
  constructor <;> omega

theorem dir_not_even (d : Hex) (hd : d ∈ hexDirections) :
    ¬((2 : Int) ∣ d.q ∧ (2 : Int) ∣ d.r) := by
  fin_cases hd <;> decide

theorem dirs_pair (d e : Hex) (hd : d ∈ hexDirections) (he : e ∈ hexDirections)
    (hq : (2 : Int) ∣ (d.q - e.q)) (hr : (2 : Int) ∣ (d.r - e.r)) :
    e = d ∨ e = ⟨-d.q, -d.r⟩ := by
  fin_cases hd <;> fin_cases he <;> revert hq hr <;> decide

theorem chainNodes_evenDiff : ∀ ds (h n : Hex), n ∈ chainNodes h ds → evenDiff n h := by
  intro ds
  induction ds with
  | nil =>
    intro h n hn
    simp [chainNodes] at hn
    subst hn; exact evenDiff_refl _
  | cons d ds ih =>
    intro h n hn
    simp only [chainNodes, List.mem_cons] at hn
    rcases hn with rfl | hn
    · exact evenDiff_refl _
    · exact evenDiff_trans (ih _ _ hn) (evenDiff_double_step h d)

theorem chainMids_not_evenDiff :
    ∀ ds (h m : Hex), (∀ e ∈ ds, e ∈ hexDirections) → m ∈ chainMids h ds →
      ¬ evenDiff m h := by
  intro ds
  induction ds with
  | nil => intro h m _ hm; simp [chainMids] at hm
  | cons d ds ih =>
    intro h m hds hm hev
    simp only [chainMids, List.mem_cons] at hm
    rcases hm with rfl | hm
    · have hd : d ∈ hexDirections := hds d (List.mem_cons_self _ _)
      refine dir_not_even d hd ⟨?_, ?_⟩
      · have := hev.1; simp [Hex.add] at this; omega
      · have := hev.2; simp [Hex.add] at this; omega
    · have hds' : ∀ e ∈ ds, e ∈ hexDirections := fun e he => hds e (List.mem_cons_of_mem _ he)
      exact ih _ _ hds' hm
        (evenDiff_trans hev ⟨by have := (evenDiff_double_step h d).1; omega,
                              by have := (evenDiff_double_step h d).2; omega⟩)

theorem chainEnd_mem_chainNodes : ∀ ds (h : Hex), chainEnd h ds ∈ chainNodes h ds := by
  intro ds
  induction ds with
  | nil => intro h; simp [chainEnd, chainNodes]
  | cons d ds ih =>
    intro h
    simp only [chainEnd, chainNodes, List.mem_cons]
    exact Or.inr (ih _)

theorem hex_eq_of_components {a b : Hex} (hq : a.q = b.q) (hr : a.r = b.r) : a = b := by
  cases a; cases b; simp_all

/-- A fresh jump from the end of a chain never passes over a coordinate
the chain already jumped over: the jumped-over coordinate has exactly two
lattice neighbours on the doubled lattice, and both are blocked. -/
theorem chainMids_avoid :
    ∀ ds (h d : Hex), (∀ e ∈ ds, e ∈ hexDirections) → d ∈ hexDirections →
      (chainNodes h ds).Nodup →
      ((chainEnd h ds).add d).add d ∉ chainNodes h ds →
      (chainEnd h ds).add d ∉ chainMids h ds := by
  intro ds
  induction ds with
  | nil => intro h d _ _ _ _ hm; simp [chainMids] at hm
  | cons d0 ds ih =>
    intro h d hds hd hnd hL hm
    have hd0 : d0 ∈ hexDirections := hds d0 (List.mem_cons_self _ _)
    have hds' : ∀ e ∈ ds, e ∈ hexDirections := fun e he => hds e (List.mem_cons_of_mem _ he)
    have hnodes : chainNodes h (d0 :: ds) = h :: chainNodes (h.add (d0.add d0)) ds := rfl
    rw [hnodes, List.nodup_cons] at hnd
    obtain ⟨hhn, hnd'⟩ := hnd
    simp only [chainMids, chainEnd, List.mem_cons] at hm
    have addq : ∀ a b : Hex, (a.add b).q = a.q + b.q := fun a b => rfl
    have addr : ∀ a b : Hex, (a.add b).r = a.r + b.r := fun a b => rfl
    rcases hm with heq | hm
    · -- the fresh jumped-over coordinate equals the first jumped-over one
      have hxh : evenDiff (chainEnd (h.add (d0.add d0)) ds) h := by
        have hxmem : chainEnd (h.add (d0.add d0)) ds ∈ chainNodes h (d0 :: ds) := by
          rw [hnodes]
          exact List.mem_cons_of_mem _ (chainEnd_mem_chainNodes _ _)
        exact chainNodes_evenDiff _ _ _ hxmem
      have hq : (chainEnd (h.add (d0.add d0)) ds).q + d.q = h.q + d0.q := by
        have h' := congrArg Hex.q heq
        rw [addq, addq] at h'
        exact h'
      have hr : (chainEnd (h.add (d0.add d0)) ds).r + d.r = h.r + d0.r := by
        have h' := congrArg Hex.r heq
        rw [addr, addr] at h'
        exact h'
      have hpair : d0 = d ∨ d0 = ⟨-d.q, -d.r⟩ := by
        refine dirs_pair d d0 hd hd0 ?_ ?_
        · obtain ⟨he, _⟩ := hxh; omega
        · obtain ⟨_, he⟩ := hxh; omega
      rcases hpair with rfl | hneg
      · -- same direction: the chain end would coincide with the start
        have hxeq : chainEnd (h.add (d0.add d0)) ds = h :=
          hex_eq_of_components (by omega) (by omega)
        have hmem := chainEnd_mem_chainNodes ds (h.add (d0.add d0))
        rw [hxeq] at hmem
        exact hhn hmem
      · -- opposite direction: the landing would be the chain start
        have h1 := congrArg Hex.q hneg
        have h2 := congrArg Hex.r hneg
        simp at h1 h2
        have hhL : h = ((chainEnd (h.add (d0.add d0)) ds).add d).add d := by
          refine hex_eq_of_components ?_ ?_
          · rw [addq, addq]; omega
          · rw [addr, addr]; omega
        apply hL
        rw [show chainEnd h (d0 :: ds) = chainEnd (h.add (d0.add d0)) ds from rfl,
            hnodes, ← hhL]
        exact List.mem_cons_self _ _
    · -- the fresh jumped-over coordinate sits in the tail of the chain
      have hL' : ((chainEnd (h.add (d0.add d0)) ds).add d).add d
          ∉ chainNodes (h.add (d0.add d0)) ds := by
        intro hmem
        exact hL (by rw [hnodes]; exact List.mem_cons_of_mem _ hmem)
      exact ih (h.add (d0.add d0)) d hds' hd hnd' hL' hm

theorem chainEnd_append : ∀ ds (h d : Hex),
    chainEnd h (ds ++ [d]) = (chainEnd h ds).add (d.add d) := by
  intro ds
  induction ds with
  | nil => intro h d; rfl
  | cons d0 ds ih => intro h d; exact ih _ _

theorem chainNodes_append : ∀ ds (h d : Hex),
    chainNodes h (ds ++ [d]) = chainNodes h ds ++ [(chainEnd h ds).add (d.add d)] := by
  intro ds
  induction ds with
  | nil => intro h d; rfl
  | cons d0 ds ih =>
    intro h d
    show h :: chainNodes (h.add (d0.add d0)) (ds ++ [d]) = _
    rw [ih]
    rfl

theorem chainMids_append : ∀ ds (h d : Hex),
    chainMids h (ds ++ [d]) = chainMids h ds ++ [(chainEnd h ds).add d] := by
  intro ds
  induction ds with
  | nil => intro h d; rfl
  | cons d0 ds ih =>
    intro h d
    show (h.add d0) :: chainMids (h.add (d0.add d0)) (ds ++ [d]) = _
    rw [ih]
    rfl

theorem chainNodes_eq_cons_landings : ∀ ds (h : Hex),
    chainNodes h ds = h :: chainLandings h ds := by
  intro ds
  induction ds with
  | nil => intro h; rfl
  | cons d0 ds ih =>
    intro h
    show h :: chainNodes (h.add (d0.add d0)) ds = _
    rw [ih]
    rfl

theorem execChain_snoc : ∀ ds (b : Board) (p : Piece) (h : Hex) (b1 : Board) (x : Hex) (d : Hex),
    execChain b p h ds = some (b1, x) →
    execChain b p h (ds ++ [d]) = execChain b1 p x [d] := by
  intro ds
  induction ds with
  | nil =>
    intro b p h b1 x d hexec
    simp [execChain] at hexec
    obtain ⟨rfl, rfl⟩ := hexec
    rfl
  | cons d0 ds ih =>
    intro b p h b1 x d hexec
    cases hj : execJump b p h d0 with
    | none =>
      rw [show execChain b p h (d0 :: ds) = (match execJump b p h d0 with
            | some bx => execChain bx.1 p bx.2 ds
            | none => none) from rfl, hj] at hexec
      simp at hexec
    | some bx =>
      rw [show execChain b p h (d0 :: ds) = (match execJump b p h d0 with
            | some bx => execChain bx.1 p bx.2 ds
            | none => none) from rfl, hj] at hexec
      have hexec' : execChain bx.1 p bx.2 ds = some (b1, x) := hexec
      have hgoal : execChain b p h ((d0 :: ds) ++ [d]) = execChain bx.1 p bx.2 (ds ++ [d]) := by
        show (match execJump b p h d0 with
              | some bx => execChain bx.1 p bx.2 (ds ++ [d])
              | none => none) = _
        rw [hj]
      rw [hgoal]
      exact ih _ _ _ _ _ _ hexec'

/-- Invariant carried through the jump search: the current position `x`
was reached from `h` by an executable chain whose positions all sit in
the visited set, whose positions are pairwise distinct, and which has
changed the board only at its own positions and jumped-over coordinates.
-/
def GoodPos (b : Board) (p : Piece) (h : Hex) (vis : List Hex) (x : Hex) : Prop :=
  ∃ ds bC, (∀ e ∈ ds, e ∈ hexDirections)
    ∧ execChain b p h ds = some (bC, x)
    ∧ chainEnd h ds = x
    ∧ (∀ y, y ∉ chainNodes h ds → y ∉ chainMids h ds → getCell bC y = getCell b y)
    ∧ (∀ n ∈ chainNodes h ds, n ∈ vis)
    ∧ (chainNodes h ds).Nodup

theorem goodPos_init (b : Board) (p : Piece) (h : Hex) : GoodPos b p h [h] h := by
  refine ⟨[], b, by simp, rfl, rfl, fun y _ _ => rfl, ?_, ?_⟩
  · intro n hn
    simp [chainNodes] at hn
    simp [hn]
  · simp [chainNodes]

theorem goodPos_mono {b : Board} {p : Piece} {h x : Hex} {vis vis' : List Hex}
    (hg : GoodPos b p h vis x) (hsub : ∀ y ∈ vis, y ∈ vis') : GoodPos b p h vis' x := by
  obtain ⟨ds, bC, h1, h2, h3, h4, h5, h6⟩ := hg
  exact ⟨ds, bC, h1, h2, h3, h4, fun n hn => hsub n (h5 n hn), h6⟩

/-- The key step: a statically valid fresh jump from the end of a good
chain is also dynamically executable, and extends the chain. -/
theorem goodPos_step {b : Board} {p : Piece} {h x d : Hex} {vis : List Hex}
    (hg : GoodPos b p h vis x) (hd : d ∈ hexDirections)
    {mc : Cell} (hmc : getCell b (x.add d) = some mc) (hmp : mc.piece.isSome)
    {lc : Cell} (hlc : getCell b ((x.add d).add d) = some lc) (hlp : lc.piece = none)
    (hnv : (x.add d).add d ∉ vis) :
    GoodPos b p h (vis ++ [(x.add d).add d]) ((x.add d).add d)
    ∧ JumpReachable b p h ((x.add d).add d) := by
  obtain ⟨ds, bC, hdirs, hexec, hend, hagree, hsub, hnd⟩ := hg
  have hxn : x ∈ chainNodes h ds := hend ▸ chainEnd_mem_chainNodes ds h
  have hxh : evenDiff x h := chainNodes_evenDiff _ _ _ hxn
  -- the jumped-over coordinate is not a chain position
  have hmn : x.add d ∉ chainNodes h ds := by
    intro hmem
    have hmh : evenDiff (x.add d) h := chainNodes_evenDiff _ _ _ hmem
    refine dir_not_even d hd ⟨?_, ?_⟩
    · obtain ⟨e1, _⟩ := hmh; obtain ⟨e2, _⟩ := hxh
      have : (x.add d).q = x.q + d.q := rfl
      omega
    · obtain ⟨_, e1⟩ := hmh; obtain ⟨_, e2⟩ := hxh
      have : (x.add d).r = x.r + d.r := rfl
      omega
  -- the landing is not a chain position
  have hLn : (x.add d).add d ∉ chainNodes h ds := fun hmem => hnv (hsub _ hmem)
  -- the jumped-over coordinate was not jumped over before
  have hmm : x.add d ∉ chainMids h ds := by
    have := chainMids_avoid ds h d hdirs hd hnd (by rw [hend]; exact hLn)
    rw [hend] at this
    exact this
  -- the landing was never jumped over
  have hLm : (x.add d).add d ∉ chainMids h ds := by
    intro hmem
    refine chainMids_not_evenDiff ds h _ hdirs hmem ?_
    have h1 : ((x.add d).add d).q = x.q + d.q + d.q := rfl
    have h2 : ((x.add d).add d).r = x.r + d.r + d.r := rfl
    obtain ⟨e1, e2⟩ := hxh
    exact ⟨by omega, by omega⟩
  -- the dynamic board agrees with the static one at both coordinates
  have hmC : getCell bC (x.add d) = some mc := by rw [hagree _ hmn hmm, hmc]
  have hLC : getCell bC ((x.add d).add d) = some lc := by rw [hagree _ hLn hLm, hlc]
  -- the fresh jump executes on the dynamic board
  obtain ⟨mp, hmpeq⟩ := Option.isSome_iff_exists.mp hmp
  have hjump : execJump bC p x d = some
      (setPieceAt (setPieceAt (if mp.color ≠ p.color then setPieceAt bC (x.add d) none else bC)
        x none) ((x.add d).add d) (some p), (x.add d).add d) := by
    simp only [execJump, if_pos hd, hmC, hLC, hmpeq, hlp, ite_true, if_pos]
  set b3 := setPieceAt (setPieceAt (if mp.color ≠ p.color then setPieceAt bC (x.add d) none else bC)
      x none) ((x.add d).add d) (some p) with hb3
  have hchain : execChain b p h (ds ++ [d]) = some (b3, (x.add d).add d) := by
    rw [execChain_snoc ds b p h bC x d hexec]
    show (match execJump bC p x d with
          | some bx => execChain bx.1 p bx.2 []
          | none => none) = _
    rw [hjump]
    rfl
  have hLassoc : (chainEnd h ds).add (d.add d) = (x.add d).add d := by
    rw [hend, Hex.add_assoc]
  have hnodes' : chainNodes h (ds ++ [d]) = chainNodes h ds ++ [(x.add d).add d] := by
    rw [chainNodes_append, hLassoc]
  have hmids' : chainMids h (ds ++ [d]) = chainMids h ds ++ [x.add d] := by
    rw [chainMids_append, hend]
  have hb3agree : ∀ y, y ∉ chainNodes h (ds ++ [d]) → y ∉ chainMids h (ds ++ [d]) →
      getCell b3 y = getCell b y := by
    intro y hyn hym
    rw [hnodes'] at hyn
    rw [hmids'] at hym
    simp only [List.mem_append, List.mem_singleton] at hyn hym
    push_neg at hyn hym
    obtain ⟨hyn1, hyn2⟩ := hyn
    obtain ⟨hym1, hym2⟩ := hym
    have hyx : y ≠ x := fun he => hyn1 (he ▸ hxn)
    rw [hb3, getCell_setPieceAt_ne _ _ _ _ hyn2, getCell_setPieceAt_ne _ _ _ _ hyx]
    by_cases hcap : mp.color ≠ p.color
    · rw [if_pos hcap, getCell_setPieceAt_ne _ _ _ _ hym2]
      exact hagree _ hyn1 hym1
    · rw [if_neg hcap]
      exact hagree _ hyn1 hym1
  have hnodnew : (chainNodes h (ds ++ [d])).Nodup := by
    rw [hnodes']
    simp [List.nodup_append, hnd, hLn]
  refine ⟨⟨ds ++ [d], b3, ?_, hchain, ?_, hb3agree, ?_, hnodnew⟩, ?_⟩
  · intro e he
    rcases List.mem_append.mp he with he | he
    · exact hdirs e he
    · simp at he; subst he; exact hd
  · rw [chainEnd_append, hLassoc]
  · intro n hn
    rw [hnodes'] at hn
    rcases List.mem_append.mp hn with hn | hn
    · exact List.mem_append.mpr (Or.inl (hsub n hn))
    · simp at hn; subst hn
      exact List.mem_append.mpr (Or.inr (by simp))
  · refine ⟨ds ++ [d], b3, by simp, hchain, ?_⟩
    have : chainNodes h (ds ++ [d]) = h :: chainLandings h (ds ++ [d]) :=
      chainNodes_eq_cons_landings _ _
    rw [this] at hnodnew
    exact (List.nodup_cons.mp hnodnew).2

/-- Soundness of the jump search: every landing it adds to the valid-move
set is reachable by an executable chain of jumps. -/
theorem findJumpGo_sound (b : Board) (p : Piece) (h : Hex) :
    ∀ fuel (x : Hex) (dirs vis val : List Hex),
      (∀ e ∈ dirs, e ∈ hexDirections) →
      GoodPos b p h vis x →
      (∀ y ∈ vis, y ∈ (findJumpGo b fuel x dirs vis val).1)
      ∧ ∀ l ∈ (findJumpGo b fuel x dirs vis val).2, l ∈ val ∨ JumpReachable b p h l := by
  intro fuel
  induction fuel with
  | zero =>
    intro x dirs vis val _ _
    exact ⟨fun y hy => hy, fun l hl => Or.inl hl⟩
  | succ fuel ih =>
    intro x dirs vis val hds hg
    match dirs with
    | [] => exact ⟨fun y hy => hy, fun l hl => Or.inl hl⟩
    | dir :: rest =>
      have hdir : dir ∈ hexDirections := hds dir (List.mem_cons_self _ _)
      have hdrest : ∀ e ∈ rest, e ∈ hexDirections := fun e he => hds e (List.mem_cons_of_mem _ he)
      -- name the one-direction accumulator
      set acc : List Hex × List Hex :=
        (match getCell b (x.add dir) with
         | some jumpedCell =>
           if jumpedCell.piece.isSome then
             match getCell b ((x.add dir).add dir) with
             | some landingCell =>
               if landingCell.piece.isNone ∧ (x.add dir).add dir ∉ vis then
                 findJumpGo b fuel ((x.add dir).add dir) hexDirections
                   (vis ++ [(x.add dir).add dir]) (val ++ [(x.add dir).add dir])
               else (vis, val)
             | none => (vis, val)
           else (vis, val)
         | none => (vis, val)) with hacc
      have hunfold : findJumpGo b (fuel + 1) x (dir :: rest) vis val
          = findJumpGo b fuel x rest acc.1 acc.2 := by
        rw [hacc]
        rfl
      have hstep : (∀ y ∈ vis, y ∈ acc.1) ∧ ∀ l ∈ acc.2, l ∈ val ∨ JumpReachable b p h l := by
        rw [hacc]
        split
        next jumpedCell hjc =>
          split
          next hjp =>
            split
            next landingCell hlcc =>
              split
              next hcond =>
                obtain ⟨hlpn, hnvis⟩ := hcond
                have hlpe : landingCell.piece = none := Option.isNone_iff_eq_none.mp hlpn
                have hsl := goodPos_step hg hdir hjc hjp hlcc hlpe hnvis
                have hrec := ih ((x.add dir).add dir) hexDirections
                  (vis ++ [(x.add dir).add dir]) (val ++ [(x.add dir).add dir])
                  (fun e he => he) hsl.1
                constructor
                · intro y hy
                  exact hrec.1 y (List.mem_append.mpr (Or.inl hy))
                · intro l hl
                  rcases hrec.2 l hl with hin | hreach
                  · rcases List.mem_append.mp hin with hin | hin
                    · exact Or.inl hin
                    · simp at hin; subst hin; exact Or.inr hsl.2
                  · exact Or.inr hreach
              next hcond =>
                exact ⟨fun y hy => hy, fun l hl => Or.inl hl⟩
            next hlcc =>
              exact ⟨fun y hy => hy, fun l hl => Or.inl hl⟩
          next hjp =>
            exact ⟨fun y hy => hy, fun l hl => Or.inl hl⟩
        next hjc =>
          exact ⟨fun y hy => hy, fun l hl => Or.inl hl⟩
      have hrest := ih x rest acc.1 acc.2 hdrest (goodPos_mono hg hstep.1)
      rw [hunfold]
      refine ⟨fun y hy => hrest.1 y (hstep.1 y hy), fun l hl => ?_⟩
      rcases hrest.2 l hl with hin | hreach
      · exact hstep.2 l hin
      · exact Or.inr hreach

/-- C3: jump-chain soundness.  Every coordinate in `getValidDiscMoves`
that is not one of the adjacent simple steps is reachable from the disc
position by a sequence of single jumps that is actually executable in
order on the evolving board (captured pieces removed, the disc moved),
through pairwise distinct landing coordinates. -/
theorem getValidDiscMoves_jump_sound (b : Board) (h : Hex) (c : Cell) (p : Piece) (l : Hex)
    (hc : getCell b h = some c) (hp : c.piece = some p)
    (hl : l ∈ getValidDiscMoves b h) (hns : l ∉ discSimpleSteps b h) :
    JumpReachable b p h l := by
  unfold getValidDiscMoves at hl
  rw [hc] at hl
  simp only at hl
  rw [hp] at hl
  simp only at hl
  by_cases ht : p.type = PieceType.disc
  · rw [if_pos ht] at hl
    have hsnd := (findJumpGo_sound b p h (7 * (b.length + 1)) h hexDirections [h]
      (discSimpleSteps b h) (fun e he => he) (goodPos_init b p h)).2 l hl
    rcases hsnd with hmem | hreach
    · exact absurd hmem hns
    · exact hreach
  · rw [if_neg ht] at hl
    simp at hl

/-- A three-tile row with an enemy disc in the middle: the jump landing
produced by the move generator, exercised through the soundness theorem.
-/
def jumpDemoBoard : Board :=
  [(⟨0, 0⟩, ⟨Color.black, some ⟨PieceType.disc, Color.black⟩⟩),
   (⟨1, 0⟩, ⟨Color.white, some ⟨PieceType.disc, Color.white⟩⟩),
   (⟨2, 0⟩, ⟨Color.black, none⟩)]

theorem getValidDiscMoves_jump_sound_witness :
    (⟨2, 0⟩ : Hex) ∈ getValidDiscMoves jumpDemoBoard ⟨0, 0⟩
    ∧ (⟨2, 0⟩ : Hex) ∉ discSimpleSteps jumpDemoBoard ⟨0, 0⟩
    ∧ JumpReachable jumpDemoBoard ⟨PieceType.disc, Color.black⟩ ⟨0, 0⟩ ⟨2, 0⟩ :=
  ⟨by decide, by decide,
   getValidDiscMoves_jump_sound jumpDemoBoard ⟨0, 0⟩
     ⟨Color.black, some ⟨PieceType.disc, Color.black⟩⟩ ⟨PieceType.disc, Color.black⟩ ⟨2, 0⟩
     (by decide) (by decide) (by decide) (by decide)⟩

/-! ## Turn-completion lemmas (C4, C5, C6) -/

theorem saveToHistory_fields (s : GameState) :
    (saveToHistory s).players = s.players
    ∧ (saveToHistory s).grid = s.grid
    ∧ (saveToHistory s).currentPlayer = s.currentPlayer
    ∧ (saveToHistory s).canContinueJumping = s.canContinueJumping
    ∧ (saveToHistory s).history = s.history ++ [⟨s.grid, s.currentPlayer, s.players⟩] := by
  simp only [saveToHistory, endGame]
  split_ifs <;> exact ⟨rfl, rfl, rfl, rfl, rfl⟩

theorem saveToHistory_draw (s : GameState)
    (h : countsGet s.positionCounts (getPositionKey s) + 1 ≥ 3) :
    (saveToHistory s).gameOver = true ∧ (saveToHistory s).winner = none := by
  simp only [saveToHistory, endGame]
  rw [if_pos h]
  exact ⟨rfl, rfl⟩

theorem checkWinConditions_fields (s : GameState) :
    (checkWinConditions s).players = s.players
    ∧ (checkWinConditions s).grid = s.grid
    ∧ (checkWinConditions s).currentPlayer = s.currentPlayer
    ∧ (checkWinConditions s).canContinueJumping = s.canContinueJumping
    ∧ (checkWinConditions s).history = s.history := by
  simp only [checkWinConditions, endGame]
  split_ifs <;> exact ⟨rfl, rfl, rfl, rfl, rfl⟩

theorem checkWinHolds_congr (s t : GameState) (hp : t.players = s.players)
    (hg : t.grid = s.grid) (hc : t.currentPlayer = s.currentPlayer) :
    checkWinHolds t = checkWinHolds s := by
  simp only [checkWinHolds]
  rw [hp, hg, hc]

theorem checkWinConditions_eq_self (s : GameState) (h : checkWinHolds s = false) :
    checkWinConditions s = s := by
  simp only [checkWinHolds, Bool.or_eq_false_iff, decide_eq_false_iff_not] at h
  obtain ⟨⟨h1, h2⟩, h3⟩ := h
  simp only [checkWinConditions]
  rw [if_neg h1, if_neg h2, if_neg h3]

theorem checkWinConditions_win_discs (s : GameState)
    (h : (getPlayer s.players (opponent s.currentPlayer)).discs.total ≤ 0) :
    checkWinConditions s
      = endGame s (some s.currentPlayer) "Win by capturing all opponent discs." := by
  simp only [checkWinConditions]
  rw [if_pos h]

theorem switchPlayer_fields (s : GameState) :
    (switchPlayer s).currentPlayer = opponent s.currentPlayer
    ∧ (switchPlayer s).players = s.players
    ∧ (switchPlayer s).grid = s.grid
    ∧ (switchPlayer s).canContinueJumping = s.canContinueJumping
    ∧ (switchPlayer s).history = s.history := by
  simp only [switchPlayer, endGame]
  split_ifs <;> exact ⟨rfl, rfl, rfl, rfl, rfl⟩

theorem finishTurn_players (s : GameState) : (finishTurn s).players = s.players := by
  simp only [finishTurn]
  split_ifs with hgo
  · rw [(checkWinConditions_fields _).1, (saveToHistory_fields _).1]
  · rw [(switchPlayer_fields _).2.1, (checkWinConditions_fields _).1,
        (saveToHistory_fields _).1]

theorem finishTurn_canContinue (s : GameState) :
    (finishTurn s).canContinueJumping = s.canContinueJumping := by
  simp only [finishTurn]
  split_ifs with hgo
  · rw [(checkWinConditions_fields _).2.2.2.1, (saveToHistory_fields _).2.2.2.1]
  · rw [(switchPlayer_fields _).2.2.2.1, (checkWinConditions_fields _).2.2.2.1,
        (saveToHistory_fields _).2.2.2.1]

theorem finishTurn_history (s : GameState) :
    (finishTurn s).history = s.history ++ [⟨s.grid, s.currentPlayer, s.players⟩] := by
  simp only [finishTurn]
  split_ifs with hgo
  · rw [(checkWinConditions_fields _).2.2.2.2, (saveToHistory_fields _).2.2.2.2]
  · rw [(switchPlayer_fields _).2.2.2.2, (checkWinConditions_fields _).2.2.2.2,
        (saveToHistory_fields _).2.2.2.2]

/-- When the opponents disc total is already zero at turn completion, the
turn-completion sequence declares the acting player the winner (any
repetition draw recorded a moment earlier is overwritten, exactly as the
unconditional `checkWinConditions` call does), and no player switch
occurs. -/
theorem finishTurn_win_discs (s : GameState)
    (h : (getPlayer s.players (opponent s.currentPlayer)).discs.total ≤ 0) :
    (finishTurn s).gameOver = true
    ∧ (finishTurn s).winner = some s.currentPlayer
    ∧ (finishTurn s).currentPlayer = s.currentPlayer
    ∧ (finishTurn s).players = s.players := by
  simp only [finishTurn]
  have hf := saveToHistory_fields s
  have h1 : (getPlayer (saveToHistory s).players
      (opponent (saveToHistory s).currentPlayer)).discs.total ≤ 0 := by
    rw [hf.1, hf.2.2.1]; exact h
  rw [checkWinConditions_win_discs _ h1]
  have hcond : (endGame (saveToHistory s) (some (saveToHistory s).currentPlayer)
      "Win by capturing all opponent discs.").gameOver = true := rfl
  rw [if_pos hcond]
  refine ⟨rfl, ?_, ?_, ?_⟩
  · show some (saveToHistory s).currentPlayer = some s.currentPlayer
    rw [hf.2.2.1]
  · show (saveToHistory s).currentPlayer = s.currentPlayer
    exact hf.2.2.1
  · show (saveToHistory s).players = s.players
    exact hf.1

/-- C5: if the current signature has already been logged at two earlier
points of the history log (and the repetition counters agree with the log
at that signature), and no win condition holds, then the turn-completion
step that logs the third occurrence immediately declares a draw: the game
is over with no winner. -/
theorem third_repetition_draws (s : GameState)
    (hcons : countsGet s.positionCounts (getPositionKey s)
      = (s.history.map snapKey).count (getPositionKey s))
    (hrep : 2 ≤ (s.history.map snapKey).count (getPositionKey s))
    (hnw : checkWinHolds s = false) :
    (finishTurn s).gameOver = true ∧ (finishTurn s).winner = none := by
  simp only [finishTurn]
  have hdraw : countsGet s.positionCounts (getPositionKey s) + 1 ≥ 3 := by
    rw [hcons]; omega
  have hd := saveToHistory_draw s hdraw
  have hf := saveToHistory_fields s
  have hnw1 : checkWinHolds (saveToHistory s) = false := by
    rw [checkWinHolds_congr s _ hf.1 hf.2.1 hf.2.2.1]; exact hnw
  rw [checkWinConditions_eq_self _ hnw1]
  rw [if_pos hd.1]
  exact hd

theorem captureJumped_core (col : Color) (acc : GameState × Bool) (jh : Hex) :
    (captureJumped col acc jh).1.currentPlayer = acc.1.currentPlayer
    ∧ (captureJumped col acc jh).1.canContinueJumping = acc.1.canContinueJumping := by
  simp only [captureJumped]
  repeat' split
  all_goals exact ⟨rfl, rfl⟩

theorem captureFold_core (col : Color) :
    ∀ (l : List Hex) (acc : GameState × Bool),
      ((l.foldl (captureJumped col) acc).1.currentPlayer = acc.1.currentPlayer)
      ∧ ((l.foldl (captureJumped col) acc).1.canContinueJumping
          = acc.1.canContinueJumping) := by
  intro l
  induction l with
  | nil => intro acc; exact ⟨rfl, rfl⟩
  | cons jh l ih =>
    intro acc
    have h1 := captureJumped_core col acc jh
    have h2 := ih (captureJumped col acc jh)
    simp only [List.foldl_cons]
    exact ⟨h2.1.trans h1.1, h2.2.trans h1.2⟩

theorem movePieceCaptures_core (s : GameState) (piece : Piece) (fromHex toHex : Hex)
    (toCell : Cell) :
    (movePieceCaptures s piece fromHex toHex toCell).1.currentPlayer = s.currentPlayer
    ∧ (movePieceCaptures s piece fromHex toHex toCell).1.canContinueJumping
        = s.canContinueJumping := by
  simp only [movePieceCaptures]
  split_ifs with h1 h2
  · exact captureFold_core _ _ _
  · split
    · exact ⟨rfl, rfl⟩
    · exact ⟨rfl, rfl⟩
  · exact ⟨rfl, rfl⟩

theorem movePieceFinish_win (s2 : GameState) (piece : Piece) (toHex : Hex) (captured : Bool)
    (hnc : (movePieceFinish s2 piece toHex captured).canContinueJumping = false)
    (hz : (getPlayer (movePieceFinish s2 piece toHex captured).players
        (opponent s2.currentPlayer)).discs.total ≤ 0) :
    (movePieceFinish s2 piece toHex captured).gameOver = true
    ∧ (movePieceFinish s2 piece toHex captured).winner = some s2.currentPlayer
    ∧ (movePieceFinish s2 piece toHex captured).currentPlayer = s2.currentPlayer := by
  by_cases h1 : piece.type = PieceType.disc ∧ captured = true
  · by_cases h2 :
      ¬ ((getValidDiscMoves s2.grid toHex).filter (fun m => toHex.distance m > 1)).isEmpty = true
    · exfalso
      have hct : (movePieceFinish s2 piece toHex captured).canContinueJumping = true := by
        simp only [movePieceFinish, if_pos h1, if_pos h2]
      rw [hct] at hnc
      exact Bool.true_eq_false.mp hnc
    · have heq : movePieceFinish s2 piece toHex captured
          = finishTurn { s2 with canContinueJumping := false, lastJumpedPiece := none } := by
        simp only [movePieceFinish, if_pos h1, if_neg h2]
      rw [heq] at hz ⊢
      rw [finishTurn_players] at hz
      have hw := finishTurn_win_discs
        { s2 with canContinueJumping := false, lastJumpedPiece := none } hz
      exact ⟨hw.1, hw.2.1, hw.2.2.1⟩
  · have heq : movePieceFinish s2 piece toHex captured
        = finishTurn { s2 with canContinueJumping := false, lastJumpedPiece := none } := by
      simp only [movePieceFinish, if_neg h1]
    rw [heq] at hz ⊢
    rw [finishTurn_players] at hz
    have hw := finishTurn_win_discs
      { s2 with canContinueJumping := false, lastJumpedPiece := none } hz
    exact ⟨hw.1, hw.2.1, hw.2.2.1⟩

/-- C4 (amended): when a disc or ring move completes the turn (no further
jump continuation is pending) and leaves the opponents disc total at
zero, the engine declares the acting player the winner before any player
switch: the game ends with the current player unchanged. -/
theorem movePiece_win_before_switch (s : GameState) (fromHex toHex : Hex)
    (fc tc : Cell) (p : Piece)
    (hfc : getCell s.grid fromHex = some fc) (htc : getCell s.grid toHex = some tc)
    (hfp : fc.piece = some p)
    (hnc : (movePiece s fromHex toHex).canContinueJumping = false)
    (hz : (getPlayer (movePiece s fromHex toHex).players
        (opponent s.currentPlayer)).discs.total ≤ 0) :
    (movePiece s fromHex toHex).gameOver = true
    ∧ (movePiece s fromHex toHex).winner = some s.currentPlayer
    ∧ (movePiece s fromHex toHex).currentPlayer = s.currentPlayer := by
  rcases hcore : movePieceCaptures s p fromHex toHex tc with ⟨s1, cap⟩
  have hmp : movePiece s fromHex toHex
      = movePieceFinish { s1 with grid := setCell (setCell s1.grid fromHex
          { fc with piece := none }) toHex { tc with piece := some p } } p toHex cap := by
    simp only [movePiece, hfc, htc, hfp, hcore]
  have hcur : s1.currentPlayer = s.currentPlayer := by
    have := (movePieceCaptures_core s p fromHex toHex tc).1
    rw [hcore] at this
    exact this
  rw [hmp] at hnc hz ⊢
  have hz2 := hz
  rw [← hcur] at hz2
  have hw := movePieceFinish_win _ p toHex cap hnc hz2
  refine ⟨hw.1, ?_, ?_⟩
  · rw [hw.2.1]
    show some s1.currentPlayer = some s.currentPlayer
    rw [hcur]
  · rw [hw.2.2]
    show s1.currentPlayer = s.currentPlayer
    exact hcur

/-- A fabricated position in which blacks jump from (0,0) over (1,0)
captures whites last disc while a further jump (over the black disc at
(2,1), landing at (2,2)) remains available. -/
def midJumpState : GameState := {
  grid := [(⟨0, 0⟩, ⟨Color.black, some ⟨PieceType.disc, Color.black⟩⟩),
           (⟨1, 0⟩, ⟨Color.white, some ⟨PieceType.disc, Color.white⟩⟩),
           (⟨2, 0⟩, ⟨Color.black, none⟩),
           (⟨2, 1⟩, ⟨Color.black, some ⟨PieceType.disc, Color.black⟩⟩),
           (⟨2, 2⟩, ⟨Color.black, none⟩)]
  players := {
    black := { tiles := ⟨9, 4⟩, discs := ⟨6, 2, 0⟩, rings := ⟨3, 0, 0⟩ }
    white := { tiles := ⟨9, 1⟩, discs := ⟨1, 1, 0⟩, rings := ⟨3, 0, 0⟩ } }
  currentPlayer := Color.black
  selectedAction := some PlayerAction.movePiece
  selectedHex := some ⟨0, 0⟩
  validMoves := []
  gameOver := false
  winner := none
  message := ""
  canContinueJumping := false
  lastJumpedPiece := none
  history := []
  positionCounts := [] }

/-- C4 (counterexample): the capture drives whites disc total to 0, yet
because a further jump is available the engine returns with the game
still in progress (no win declared yet) and a continuation pending. -/
theorem midjump_capture_win_deferred :
    (getPlayer (movePiece midJumpState ⟨0, 0⟩ ⟨2, 0⟩).players Color.white).discs.total = 0
    ∧ (movePiece midJumpState ⟨0, 0⟩ ⟨2, 0⟩).gameOver = false
    ∧ (movePiece midJumpState ⟨0, 0⟩ ⟨2, 0⟩).winner = none
    ∧ (movePiece midJumpState ⟨0, 0⟩ ⟨2, 0⟩).canContinueJumping = true := by
  refine ⟨by decide, by decide, by decide, by decide⟩

/-- Like `midJumpState` but with no further jump available after the
capture, so the turn completes. -/
def endJumpState : GameState := {
  grid := [(⟨0, 0⟩, ⟨Color.black, some ⟨PieceType.disc, Color.black⟩⟩),
           (⟨1, 0⟩, ⟨Color.white, some ⟨PieceType.disc, Color.white⟩⟩),
           (⟨2, 0⟩, ⟨Color.black, none⟩)]
  players := {
    black := { tiles := ⟨9, 2⟩, discs := ⟨6, 1, 0⟩, rings := ⟨3, 0, 0⟩ }
    white := { tiles := ⟨9, 1⟩, discs := ⟨1, 1, 0⟩, rings := ⟨3, 0, 0⟩ } }
  currentPlayer := Color.black
  selectedAction := some PlayerAction.movePiece
  selectedHex := some ⟨0, 0⟩
  validMoves := []
  gameOver := false
  winner := none
  message := ""
  canContinueJumping := false
  lastJumpedPiece := none
  history := []
  positionCounts := [] }

theorem movePiece_win_before_switch_witness :
    (movePiece endJumpState ⟨0, 0⟩ ⟨2, 0⟩).gameOver = true
    ∧ (movePiece endJumpState ⟨0, 0⟩ ⟨2, 0⟩).winner = some Color.black
    ∧ (movePiece endJumpState ⟨0, 0⟩ ⟨2, 0⟩).currentPlayer = Color.black :=
  movePiece_win_before_switch endJumpState ⟨0, 0⟩ ⟨2, 0⟩
    ⟨Color.black, some ⟨PieceType.disc, Color.black⟩⟩ ⟨Color.black, none⟩
    ⟨PieceType.disc, Color.black⟩
    (by decide) (by decide) (by decide) (by decide) (by decide)

theorem fromHash_hash_roundtrip_witness :
    Hex.fromHash (Hex.hash ⟨-3, 7⟩) = ⟨-3, 7⟩ ∧ (⟨1, -2⟩ : Hex) = ⟨1, -2⟩ :=
  ⟨fromHash_hash_roundtrip.1 ⟨-3, 7⟩, fromHash_hash_roundtrip.2 ⟨1, -2⟩ ⟨1, -2⟩ rfl⟩

/-! ## Repetition counters agree with the history log -/

theorem countsGet_countsSet (m : PosCounts) (k k' : PositionKey) (n : Nat) :
    countsGet (countsSet m k n) k' = if k = k' then n else countsGet m k' := by
  induction m with
  | nil =>
    simp only [countsSet, countsGet]
  | cons e rest ih =>
    obtain ⟨k0, n0⟩ := e
    by_cases h0 : k0 = k
    · subst h0
      simp only [countsSet, if_pos rfl, countsGet]
      split_ifs <;> rfl
    · simp only [countsSet, if_neg h0, countsGet, ih]
      by_cases h1 : k0 = k'
      · subst h1
        rw [if_pos rfl, if_neg (fun he => h0 he.symm), if_pos rfl]
      · rw [if_neg h1, if_neg h1]

/-- Pushing to history keeps the repetition counters consistent with the
log, so the counter hypothesis of the repetition theorem holds along any
run of the engine. -/
theorem saveToHistory_counts_consistent (s : GameState)
    (hcons : ∀ k, countsGet s.positionCounts k = (s.history.map snapKey).count k) :
    ∀ k, countsGet (saveToHistory s).positionCounts k
      = ((saveToHistory s).history.map snapKey).count k := by
  intro k
  have hpc : (saveToHistory s).positionCounts
      = countsSet s.positionCounts (getPositionKey s)
          (countsGet s.positionCounts (getPositionKey s) + 1) := by
    simp only [saveToHistory, endGame]
    split_ifs <;> rfl
  have hh := (saveToHistory_fields s).2.2.2.2
  rw [hpc, hh, countsGet_countsSet, List.map_append, List.count_append]
  have hsnap : snapKey ⟨s.grid, s.currentPlayer, s.players⟩ = getPositionKey s := rfl
  by_cases hk : getPositionKey s = k
  · rw [if_pos hk, hcons]
    subst hk
    have h1 : (List.map snapKey [(⟨s.grid, s.currentPlayer, s.players⟩ : Snapshot)]).count
        (getPositionKey s) = 1 := by
      simp only [List.map_cons, List.map_nil, hsnap]
      simp
    rw [h1]
  · rw [if_neg hk, hcons]
    have hbeq : (getPositionKey s == k) = false := by
      rw [beq_eq_false_iff_ne]
      exact hk
    have hbeq' : (k == getPositionKey s) = false := by
      rw [beq_eq_false_iff_ne]
      exact fun he => hk he.symm
    have h0 : (List.map snapKey [(⟨s.grid, s.currentPlayer, s.players⟩ : Snapshot)]).count
        k = 0 := by
      simp only [List.map_cons, List.map_nil, hsnap]
      simp [List.count_cons, hbeq, hbeq']
    rw [h0]
    omega

/-- A fabricated position whose signature already occurs twice in the
history log, with counters consistent with the log. -/
def repGrid : Board :=
  [(⟨0, 0⟩, ⟨Color.black, some ⟨PieceType.disc, Color.black⟩⟩),
   (⟨1, 0⟩, ⟨Color.white, some ⟨PieceType.disc, Color.white⟩⟩)]

def repPlayers : Players := {
  black := { tiles := ⟨9, 2⟩, discs := ⟨6, 1, 0⟩, rings := ⟨3, 0, 0⟩ }
  white := { tiles := ⟨9, 2⟩, discs := ⟨6, 1, 0⟩, rings := ⟨3, 0, 0⟩ } }

def repState : GameState := {
  grid := repGrid
  players := repPlayers
  currentPlayer := Color.black
  selectedAction := none
  selectedHex := none
  validMoves := []
  gameOver := false
  winner := none
  message := ""
  canContinueJumping := false
  lastJumpedPiece := none
  history := [⟨repGrid, Color.black, repPlayers⟩, ⟨repGrid, Color.black, repPlayers⟩]
  positionCounts := [(⟨sortCells repGrid, Color.black⟩, 2)] }

theorem third_repetition_draws_witness :
    (finishTurn repState).gameOver = true ∧ (finishTurn repState).winner = none :=
  third_repetition_draws repState (by decide) (by decide) (by decide)

/-! ## Mid-chain selection behaviour (C6) -/

theorem finishTurn_switched (t : GameState) (h : (finishTurn t).gameOver = false) :
    (finishTurn t).currentPlayer = opponent t.currentPlayer := by
  simp only [finishTurn] at *
  split_ifs at * with hgo
  · exact absurd (hgo ▸ h) (by simp)
  · rw [(switchPlayer_fields _).1, (checkWinConditions_fields _).2.2.1,
        (saveToHistory_fields _).2.2.1]

/-- A fabricated continuation state: the black disc at (2,0) is mid
multi-jump (`canContinueJumping` with `lastJumpedPiece = (2,0)`), the
move action is selected and no source has been picked yet.  A second
black disc sits at (0,0) and a white disc at (1,1). -/
def continuationState : GameState := {
  grid := [(⟨2, 0⟩, ⟨Color.black, some ⟨PieceType.disc, Color.black⟩⟩),
           (⟨0, 0⟩, ⟨Color.black, some ⟨PieceType.disc, Color.black⟩⟩),
           (⟨1, 1⟩, ⟨Color.white, some ⟨PieceType.disc, Color.white⟩⟩)]
  players := repPlayers
  currentPlayer := Color.black
  selectedAction := some PlayerAction.movePiece
  selectedHex := none
  validMoves := []
  gameOver := false
  winner := none
  message := ""
  canContinueJumping := true
  lastJumpedPiece := some ⟨2, 0⟩
  history := []
  positionCounts := [] }

/-- C6 (counterexample): with a continuation pending, selecting the empty
coordinate (5,5) — a coordinate other than the mid-chain piece at (2,0) —
does not end the turn: nothing is logged to history, the player is not
switched, and the continuation flag is still set; the click is merely
rejected with a message. -/
theorem continuation_other_select_not_turn_end :
    ((⟨5, 5⟩ : Hex) ≠ (⟨2, 0⟩ : Hex))
    ∧ continuationState.canContinueJumping = true
    ∧ continuationState.lastJumpedPiece = some ⟨2, 0⟩
    ∧ (selectHex continuationState ⟨5, 5⟩).history = continuationState.history
    ∧ (selectHex continuationState ⟨5, 5⟩).currentPlayer = continuationState.currentPlayer
    ∧ (selectHex continuationState ⟨5, 5⟩).canContinueJumping = true := by
  refine ⟨by decide, by decide, by decide, by decide, by decide, by decide⟩

/-- C6 (amended): with a continuation pending and no source selected,
selecting a coordinate that holds a FRIENDLY piece other than the
mid-chain piece ends the turn immediately: the continuation is cleared,
the position is logged to history, win conditions are evaluated (in
particular an empty opponent disc pool makes the acting player win on the
spot), and if the game has not ended the player is switched.  Selecting a
coordinate that does not hold a friendly piece is instead rejected with a
status message and does not end the turn. -/
theorem continuation_friendly_forfeit (s : GameState) (hex lj : Hex) (c : Cell) (p : Piece)
    (hgo : s.gameOver = false)
    (hact : s.selectedAction = some PlayerAction.movePiece)
    (hsel : s.selectedHex = none)
    (hcell : getCell s.grid hex = some c) (hp : c.piece = some p)
    (hcol : p.color = s.currentPlayer)
    (hcj : s.canContinueJumping = true)
    (hlj : s.lastJumpedPiece = some lj) (hne : hex ≠ lj) :
    (selectHex s hex).history = s.history ++ [⟨s.grid, s.currentPlayer, s.players⟩]
    ∧ (selectHex s hex).canContinueJumping = false
    ∧ (selectHex s hex).players = s.players
    ∧ ((selectHex s hex).gameOver = false →
        (selectHex s hex).currentPlayer = opponent s.currentPlayer)
    ∧ ((getPlayer s.players (opponent s.currentPlayer)).discs.total ≤ 0 →
        (selectHex s hex).gameOver = true
        ∧ (selectHex s hex).winner = some s.currentPlayer) := by
  have hstep : selectHex s hex
      = finishTurn { s with canContinueJumping := false, lastJumpedPiece := none } := by
    unfold selectHex
    rw [if_neg (by rw [hgo]; simp)]
    rw [if_neg (by rw [hact]; simp)]
    rw [if_pos (show s.selectedAction = some PlayerAction.movePiece ∧ s.selectedHex = none from
        ⟨hact, hsel⟩)]
    simp only [hcell, hp]
    rw [if_neg (show ¬ (p.color ≠ s.currentPlayer) from fun hcon => hcon hcol)]
    rw [if_pos (show s.canContinueJumping = true ∧ s.lastJumpedPiece ≠ some hex from
        ⟨hcj, by rw [hlj]; exact fun he => hne (Option.some.inj he).symm⟩)]
  rw [hstep]
  refine ⟨?_, ?_, ?_, ?_, ?_⟩
  · rw [finishTurn_history]
  · rw [finishTurn_canContinue]
  · rw [finishTurn_players]
  · intro hgof
    exact finishTurn_switched _ hgof
  · intro hz
    have hw := finishTurn_win_discs
      { s with canContinueJumping := false, lastJumpedPiece := none } hz
    exact ⟨hw.1, hw.2.1⟩

theorem continuation_friendly_forfeit_witness :
    (selectHex continuationState ⟨0, 0⟩).history
      = continuationState.history
        ++ [⟨continuationState.grid, Color.black, continuationState.players⟩]
    ∧ (selectHex continuationState ⟨0, 0⟩).canContinueJumping = false
    ∧ (selectHex continuationState ⟨0, 0⟩).players = continuationState.players
    ∧ ((selectHex continuationState ⟨0, 0⟩).gameOver = false →
        (selectHex continuationState ⟨0, 0⟩).currentPlayer = Color.white)
    ∧ ((getPlayer continuationState.players Color.white).discs.total ≤ 0 →
        (selectHex continuationState ⟨0, 0⟩).gameOver = true
        ∧ (selectHex continuationState ⟨0, 0⟩).winner = some Color.black) :=
  continuation_friendly_forfeit continuationState ⟨0, 0⟩ ⟨2, 0⟩
    ⟨Color.black, some ⟨PieceType.disc, Color.black⟩⟩ ⟨PieceType.disc, Color.black⟩
    (by decide) (by decide) (by decide) (by decide) (by decide) (by decide) (by decide)
    (by decide) (by decide)

/-! ## Illegal selections are rejected without state change (C9) -/

/-- The clicked coordinate holds a piece of the current player. -/
def friendlyPieceAt (s : GameState) (hex : Hex) : Prop :=
  ∃ c pp, getCell s.grid hex = some c ∧ c.piece = some pp ∧ pp.color = s.currentPlayer

/-- C9: every illegal selection — an action whose supply is exhausted, a
move source that is not a friendly piece, or a destination outside the
current legal-destination set — is rejected by a total function that only
sets a status message (and clears the transient selection fields): the
board, both players resource pools, the current player, and the outcome
are unchanged. -/
theorem illegal_selection_state_unchanged :
    (∀ s : GameState, s.gameOver = false →
      (getPlayer s.players s.currentPlayer).tiles.placed
          ≥ (getPlayer s.players s.currentPlayer).tiles.total →
      selectAction s PlayerAction.placeTile
        = { s with selectedAction := none, selectedHex := none, validMoves := [],
                   message := "No more tiles available to place." })
    ∧ (∀ s : GameState, s.gameOver = false →
        (getPlayer s.players s.currentPlayer).discs.placed
            ≥ (getPlayer s.players s.currentPlayer).discs.total →
        selectAction s PlayerAction.placeDisc
          = { s with selectedAction := none, selectedHex := none, validMoves := [],
                     message := "No more discs available to place." })
    ∧ (∀ s : GameState, s.gameOver = false →
        (getPlayer s.players s.currentPlayer).rings.placed
            ≥ (getPlayer s.players s.currentPlayer).rings.total →
        selectAction s PlayerAction.placeRing
          = { s with selectedAction := none, selectedHex := none, validMoves := [],
                     message := "No more rings available to place." })
    ∧ (∀ s : GameState, s.gameOver = false →
        (getPlayer s.players s.currentPlayer).rings.placed
            < (getPlayer s.players s.currentPlayer).rings.total →
        (getPlayer s.players s.currentPlayer).discs.captured ≤ 0 →
        selectAction s PlayerAction.placeRing
          = { s with selectedAction := none, selectedHex := none, validMoves := [],
                     message := "You need captured discs to place a ring." })
    ∧ (∀ (s : GameState) (hex : Hex), s.gameOver = false →
        s.selectedAction = some PlayerAction.movePiece → s.selectedHex = none →
        ¬ friendlyPieceAt s hex →
        selectHex s hex = { s with message := "Select one of your pieces to move." })
    ∧ (∀ (s : GameState) (hex : Hex) (a : PlayerAction), s.gameOver = false →
        s.selectedAction = some a →
        ¬ (a = PlayerAction.movePiece ∧ s.selectedHex = none) →
        hex ∉ s.validMoves →
        selectHex s hex = { s with message := "Invalid move. Try again." }) := by
  refine ⟨?_, ?_, ?_, ?_, ?_, ?_⟩
  · intro s hgo hsup
    simp [selectAction, hgo, hsup]
  · intro s hgo hsup
    simp [selectAction, hgo, hsup]
  · intro s hgo hsup
    simp [selectAction, hgo, hsup]
  · intro s hgo hsup hcap
    have hnsup : ¬ ((getPlayer s.players s.currentPlayer).rings.placed
        ≥ (getPlayer s.players s.currentPlayer).rings.total) := not_le.mpr hsup
    simp [selectAction, hgo, hnsup, hcap]
  · intro s hex hgo hact hsel hnf
    unfold selectHex
    rw [if_neg (by rw [hgo]; simp)]
    rw [if_neg (by rw [hact]; simp)]
    rw [if_pos (show s.selectedAction = some PlayerAction.movePiece ∧ s.selectedHex = none from
        ⟨hact, hsel⟩)]
    cases hcell : getCell s.grid hex with
    | none => rfl
    | some c =>
      cases hcp : c.piece with
      | none => simp only [hcp]
      | some pp =>
        simp only [hcp]
        rw [if_pos (show pp.color ≠ s.currentPlayer from
          fun heq => hnf ⟨c, pp, hcell, hcp, heq⟩)]
  · intro s hex a hgo hact hna hnm
    unfold selectHex
    rw [if_neg (by rw [hgo]; simp)]
    rw [if_neg (by rw [hact]; simp)]
    rw [if_neg (show ¬ (s.selectedAction = some PlayerAction.movePiece ∧ s.selectedHex = none)
        from fun hcon => hna ⟨by
          have := hact.symm.trans hcon.1
          exact Option.some.inj this, hcon.2⟩)]
    rw [if_pos hnm]

/-- The stalemate state viewed from whites side (all supplies exhausted),
and a variant with a placement action selected, used as witnesses. -/
def exhaustedWhiteState : GameState :=
  { stalemateState with currentPlayer := Color.white }

def placeTileSelectedState : GameState :=
  { stalemateState with selectedAction := some PlayerAction.placeTile }

theorem illegal_selection_state_unchanged_witness :
    selectAction exhaustedWhiteState PlayerAction.placeTile
      = { exhaustedWhiteState with selectedAction := none, selectedHex := none,
                                   validMoves := [],
                                   message := "No more tiles available to place." }
    ∧ selectAction exhaustedWhiteState PlayerAction.placeDisc
      = { exhaustedWhiteState with selectedAction := none, selectedHex := none,
                                   validMoves := [],
                                   message := "No more discs available to place." }
    ∧ selectAction exhaustedWhiteState PlayerAction.placeRing
      = { exhaustedWhiteState with selectedAction := none, selectedHex := none,
                                   validMoves := [],
                                   message := "No more rings available to place." }
    ∧ selectAction stalemateState PlayerAction.placeRing
      = { stalemateState with selectedAction := none, selectedHex := none,
                              validMoves := [],
                              message := "You need captured discs to place a ring." }
    ∧ selectHex continuationState ⟨5, 5⟩
      = { continuationState with message := "Select one of your pieces to move." }
    ∧ selectHex placeTileSelectedState ⟨9, 9⟩
      = { placeTileSelectedState with message := "Invalid move. Try again." } := by
  refine ⟨illegal_selection_state_unchanged.1 _ (by decide) (by decide),
          illegal_selection_state_unchanged.2.1 _ (by decide) (by decide),
          illegal_selection_state_unchanged.2.2.1 _ (by decide) (by decide),
          illegal_selection_state_unchanged.2.2.2.1 _ (by decide) (by decide) (by decide),
          illegal_selection_state_unchanged.2.2.2.2.1 _ _ (by decide) (by decide) (by decide)
            (fun hf => ?_),
          illegal_selection_state_unchanged.2.2.2.2.2 _ _ PlayerAction.placeTile (by decide)
            (by decide) (by decide) (by decide)⟩
  obtain ⟨c, pp, hc, _, _⟩ := hf
  exact Option.noConfusion
    ((by decide : getCell continuationState.grid ⟨5, 5⟩ = none).symm.trans hc)

/-! ## Disc-pool bookkeeping (C7) -/

theorem getPlayer_setPlayer (ps : Players) (c c' : Color) (pd : PlayerData) :
    getPlayer (setPlayer ps c pd) c' = if c = c' then pd else getPlayer ps c' := by
  cases c <;> cases c' <;> simp [getPlayer, setPlayer]

theorem opponent_ne_self (c : Color) : opponent c ≠ c := by
  cases c <;> decide

/-- The effect of one capture-loop step on the disc pools, relative to
the current player of the accumulated state: the current players total is
unchanged, the opponents captured counter is unchanged, the opponents
total never increases, and any decrease of the opponents total is matched
one for one by an increase of the current players captured counter. -/
theorem captureJumped_discs (col : Color) (acc : GameState × Bool) (jh : Hex) :
    ((getPlayer (captureJumped col acc jh).1.players acc.1.currentPlayer).discs.total
        = (getPlayer acc.1.players acc.1.currentPlayer).discs.total)
    ∧ ((getPlayer (captureJumped col acc jh).1.players
          (opponent acc.1.currentPlayer)).discs.captured
        = (getPlayer acc.1.players (opponent acc.1.currentPlayer)).discs.captured)
    ∧ ((getPlayer acc.1.players (opponent acc.1.currentPlayer)).discs.total
          - (getPlayer (captureJumped col acc jh).1.players
              (opponent acc.1.currentPlayer)).discs.total
        = (getPlayer (captureJumped col acc jh).1.players acc.1.currentPlayer).discs.captured
          - (getPlayer acc.1.players acc.1.currentPlayer).discs.captured)
    ∧ ((getPlayer (captureJumped col acc jh).1.players
          (opponent acc.1.currentPlayer)).discs.total
        ≤ (getPlayer acc.1.players (opponent acc.1.currentPlayer)).discs.total) := by
  have hne1 : ¬ (acc.1.currentPlayer = opponent acc.1.currentPlayer) :=
    fun he => opponent_ne_self acc.1.currentPlayer he.symm
  have hne2 : ¬ (opponent acc.1.currentPlayer = acc.1.currentPlayer) :=
    opponent_ne_self acc.1.currentPlayer
  simp only [captureJumped]
  split
  next jc hjc =>
    split
    next jp hjp =>
      split
      next hcol =>
        split
        next hdisc =>
          simp [getPlayer_setPlayer, hne1, hne2]
        next hring =>
          simp [getPlayer_setPlayer, hne1, hne2]
      next hcol => exact ⟨rfl, rfl, by omega, by omega⟩
    next hjp => exact ⟨rfl, rfl, by omega, by omega⟩
  next hjc => exact ⟨rfl, rfl, by omega, by omega⟩

theorem captureFold_discs (col : Color) :
    ∀ (l : List Hex) (acc : GameState × Bool),
      ((getPlayer (l.foldl (captureJumped col) acc).1.players acc.1.currentPlayer).discs.total
          = (getPlayer acc.1.players acc.1.currentPlayer).discs.total)
      ∧ ((getPlayer (l.foldl (captureJumped col) acc).1.players
            (opponent acc.1.currentPlayer)).discs.captured
          = (getPlayer acc.1.players (opponent acc.1.currentPlayer)).discs.captured)
      ∧ ((getPlayer acc.1.players (opponent acc.1.currentPlayer)).discs.total
            - (getPlayer (l.foldl (captureJumped col) acc).1.players
                (opponent acc.1.currentPlayer)).discs.total
          = (getPlayer (l.foldl (captureJumped col) acc).1.players
                acc.1.currentPlayer).discs.captured
            - (getPlayer acc.1.players acc.1.currentPlayer).discs.captured)
      ∧ ((getPlayer (l.foldl (captureJumped col) acc).1.players
            (opponent acc.1.currentPlayer)).discs.total
          ≤ (getPlayer acc.1.players (opponent acc.1.currentPlayer)).discs.total) := by
  intro l
  induction l with
  | nil =>
    intro acc
    exact ⟨rfl, rfl, by simp, by simp⟩
  | cons jh l ih =>
    intro acc
    have hstep := captureJumped_discs col acc jh
    have hcur : (captureJumped col acc jh).1.currentPlayer = acc.1.currentPlayer :=
      (captureJumped_core col acc jh).1
    have hrest := ih (captureJumped col acc jh)
    rw [hcur] at hrest
    simp only [List.foldl_cons]
    obtain ⟨hs1, hs2, hs3, hs4⟩ := hstep
    obtain ⟨hr1, hr2, hr3, hr4⟩ := hrest
    exact ⟨by omega, by omega, by omega, by omega⟩

theorem captureAtLanding_discs (s : GameState) (cp : Piece) :
    ((getPlayer (captureAtLanding s cp).players s.currentPlayer).discs.total
        = (getPlayer s.players s.currentPlayer).discs.total)
    ∧ ((getPlayer (captureAtLanding s cp).players
          (opponent s.currentPlayer)).discs.captured
        = (getPlayer s.players (opponent s.currentPlayer)).discs.captured)
    ∧ ((getPlayer s.players (opponent s.currentPlayer)).discs.total
          - (getPlayer (captureAtLanding s cp).players (opponent s.currentPlayer)).discs.total
        = (getPlayer (captureAtLanding s cp).players s.currentPlayer).discs.captured
          - (getPlayer s.players s.currentPlayer).discs.captured)
    ∧ ((getPlayer (captureAtLanding s cp).players (opponent s.currentPlayer)).discs.total
        ≤ (getPlayer s.players (opponent s.currentPlayer)).discs.total) := by
  have hne1 : ¬ (s.currentPlayer = opponent s.currentPlayer) :=
    fun he => opponent_ne_self s.currentPlayer he.symm
  have hne2 : ¬ (opponent s.currentPlayer = s.currentPlayer) :=
    opponent_ne_self s.currentPlayer
  simp only [captureAtLanding]
  split
  next hdisc =>
    simp [getPlayer_setPlayer, hne1, hne2]
  next hring =>
    simp [getPlayer_setPlayer, hne1, hne2]

theorem movePieceFinish_players (s2 : GameState) (piece : Piece) (toHex : Hex)
    (captured : Bool) :
    (movePieceFinish s2 piece toHex captured).players = s2.players := by
  simp only [movePieceFinish]
  split_ifs <;> first | rfl | rw [finishTurn_players]

theorem movePieceCaptures_discs (s : GameState) (piece : Piece) (fromHex toHex : Hex)
    (toCell : Cell) :
    ((getPlayer (movePieceCaptures s piece fromHex toHex toCell).1.players
          s.currentPlayer).discs.total
        = (getPlayer s.players s.currentPlayer).discs.total)
    ∧ ((getPlayer (movePieceCaptures s piece fromHex toHex toCell).1.players
          (opponent s.currentPlayer)).discs.captured
        = (getPlayer s.players (opponent s.currentPlayer)).discs.captured)
    ∧ ((getPlayer s.players (opponent s.currentPlayer)).discs.total
          - (getPlayer (movePieceCaptures s piece fromHex toHex toCell).1.players
              (opponent s.currentPlayer)).discs.total
        = (getPlayer (movePieceCaptures s piece fromHex toHex toCell).1.players
              s.currentPlayer).discs.captured
          - (getPlayer s.players s.currentPlayer).discs.captured)
    ∧ ((getPlayer (movePieceCaptures s piece fromHex toHex toCell).1.players
          (opponent s.currentPlayer)).discs.total
        ≤ (getPlayer s.players (opponent s.currentPlayer)).discs.total) := by
  simp only [movePieceCaptures]
  split_ifs with h1 h2
  · exact captureFold_discs piece.color (getJumpedHexes fromHex toHex) (s, false)
  · split
    next cp hcp => exact captureAtLanding_discs s cp
    next hcp => exact ⟨rfl, rfl, by simp, by simp⟩
  · exact ⟨rfl, rfl, by simp, by simp⟩

theorem movePiece_discs (s : GameState) (fromHex toHex : Hex) :
    ((getPlayer (movePiece s fromHex toHex).players s.currentPlayer).discs.total
        = (getPlayer s.players s.currentPlayer).discs.total)
    ∧ ((getPlayer (movePiece s fromHex toHex).players (opponent s.currentPlayer)).discs.captured
        = (getPlayer s.players (opponent s.currentPlayer)).discs.captured)
    ∧ ((getPlayer s.players (opponent s.currentPlayer)).discs.total
          - (getPlayer (movePiece s fromHex toHex).players
              (opponent s.currentPlayer)).discs.total
        = (getPlayer (movePiece s fromHex toHex).players s.currentPlayer).discs.captured
          - (getPlayer s.players s.currentPlayer).discs.captured)
    ∧ ((getPlayer (movePiece s fromHex toHex).players (opponent s.currentPlayer)).discs.total
        ≤ (getPlayer s.players (opponent s.currentPlayer)).discs.total) := by
  cases hfc : getCell s.grid fromHex with
  | none =>
    have hmp : movePiece s fromHex toHex = s := by
      simp only [movePiece, hfc]
    rw [hmp]
    exact ⟨rfl, rfl, by omega, by omega⟩
  | some fromCell =>
    cases htc : getCell s.grid toHex with
    | none =>
      have hmp : movePiece s fromHex toHex = s := by
        simp only [movePiece, hfc, htc]
      rw [hmp]
      exact ⟨rfl, rfl, by omega, by omega⟩
    | some toCell =>
      cases hfp : fromCell.piece with
      | none =>
        have hmp : movePiece s fromHex toHex = s := by
          simp only [movePiece, hfc, htc, hfp]
        rw [hmp]
        exact ⟨rfl, rfl, by omega, by omega⟩
      | some piece =>
        rcases hcore : movePieceCaptures s piece fromHex toHex toCell with ⟨s1, cap⟩
        have hmp : movePiece s fromHex toHex
            = movePieceFinish { s1 with grid := setCell (setCell s1.grid fromHex
                { fromCell with piece := none }) toHex { toCell with piece := some piece } }
              piece toHex cap := by
          simp only [movePiece, hfc, htc, hfp, hcore]
        have hd := movePieceCaptures_discs s piece fromHex toHex toCell
        rw [hcore] at hd
        rw [hmp, movePieceFinish_players]
        exact hd

theorem color_cases (c col : Color) : col = c ∨ col = opponent c := by
  cases c <;> cases col <;> simp [opponent]

/-- C7: ring placement is the one operation that moves a disc from the
acting players captured pool back to the opponents total (captured minus
one, opponent total plus one); tile and disc placement leave every disc
total and captured counter unchanged; piece movement never increases any
disc total, leaves the acting players own total unchanged, and decreases
the victims total by exactly the number of discs the move captures (the
same amount the acting players captured counter increases by); and the
turn bookkeeping (history, win check, player switch, action selection)
never touches the pools. -/
theorem disc_bookkeeping_conservation :
    (∀ (s : GameState) (hex : Hex) (c : Cell), getCell s.grid hex = some c →
      (getPlayer (placeRing s hex).players s.currentPlayer).discs.captured
          = (getPlayer s.players s.currentPlayer).discs.captured - 1
      ∧ (getPlayer (placeRing s hex).players (opponent s.currentPlayer)).discs.total
          = (getPlayer s.players (opponent s.currentPlayer)).discs.total + 1
      ∧ (getPlayer (placeRing s hex).players s.currentPlayer).discs.total
          = (getPlayer s.players s.currentPlayer).discs.total
      ∧ (getPlayer (placeRing s hex).players (opponent s.currentPlayer)).discs.captured
          = (getPlayer s.players (opponent s.currentPlayer)).discs.captured)
    ∧ (∀ (s : GameState) (hex : Hex) (col : Color),
        (getPlayer (placeTile s hex).players col).discs = (getPlayer s.players col).discs
        ∧ (getPlayer (placeDisc s hex).players col).discs.total
            = (getPlayer s.players col).discs.total
        ∧ (getPlayer (placeDisc s hex).players col).discs.captured
            = (getPlayer s.players col).discs.captured)
    ∧ (∀ (s : GameState) (fromHex toHex : Hex) (col : Color),
        (getPlayer (movePiece s fromHex toHex).players col).discs.total
          ≤ (getPlayer s.players col).discs.total)
    ∧ (∀ (s : GameState) (fromHex toHex : Hex),
        (getPlayer (movePiece s fromHex toHex).players s.currentPlayer).discs.total
          = (getPlayer s.players s.currentPlayer).discs.total
        ∧ (getPlayer s.players (opponent s.currentPlayer)).discs.total
            - (getPlayer (movePiece s fromHex toHex).players
                (opponent s.currentPlayer)).discs.total
          = (getPlayer (movePiece s fromHex toHex).players s.currentPlayer).discs.captured
            - (getPlayer s.players s.currentPlayer).discs.captured)
    ∧ (∀ s : GameState, (saveToHistory s).players = s.players
        ∧ (checkWinConditions s).players = s.players
        ∧ (switchPlayer s).players = s.players
        ∧ ∀ a : PlayerAction, (selectAction s a).players = s.players) := by
  have hne1 : ∀ c : Color, ¬ (c = opponent c) :=
    fun c he => opponent_ne_self c he.symm
  have hne2 : ∀ c : Color, ¬ (opponent c = c) := opponent_ne_self
  refine ⟨?_, ?_, ?_, ?_, ?_⟩
  · intro s hex c hcell
    simp only [placeRing, hcell]
    simp [getPlayer_setPlayer, hne1 s.currentPlayer, hne2 s.currentPlayer]
  · intro s hex col
    refine ⟨?_, ?_, ?_⟩
    · rcases color_cases s.currentPlayer col with rfl | rfl
      · simp [placeTile, getPlayer_setPlayer]
      · simp [placeTile, getPlayer_setPlayer, hne1 s.currentPlayer]
    · cases hcell : getCell s.grid hex with
      | none => simp [placeDisc, hcell]
      | some c =>
        rcases color_cases s.currentPlayer col with rfl | rfl
        · simp [placeDisc, hcell, getPlayer_setPlayer]
        · simp [placeDisc, hcell, getPlayer_setPlayer, hne1 s.currentPlayer]
    · cases hcell : getCell s.grid hex with
      | none => simp [placeDisc, hcell]
      | some c =>
        rcases color_cases s.currentPlayer col with rfl | rfl
        · simp [placeDisc, hcell, getPlayer_setPlayer]
        · simp [placeDisc, hcell, getPlayer_setPlayer, hne1 s.currentPlayer]
  · intro s fromHex toHex col
    have hd := movePiece_discs s fromHex toHex
    rcases color_cases s.currentPlayer col with rfl | rfl
    · omega
    · omega
  · intro s fromHex toHex
    have hd := movePiece_discs s fromHex toHex
    exact ⟨hd.1, hd.2.2.1⟩
  · intro s
    refine ⟨(saveToHistory_fields s).1, (checkWinConditions_fields s).1,
            (switchPlayer_fields s).2.1, ?_⟩
    intro a
    cases a <;> simp only [selectAction, autoCancelEmpty] <;> split_ifs <;> rfl

/-- An empty black tile at the origin with one captured disc available:
witness position for the ring-placement bookkeeping. -/
def ringPlacementState : GameState :=
  { stalemateState with
      grid := [(⟨0, 0⟩, ⟨Color.black, none⟩),
               (⟨1, 0⟩, ⟨Color.white, some ⟨PieceType.disc, Color.white⟩⟩)],
      players := { black := { tiles := ⟨9, 1⟩, discs := ⟨5, 0, 1⟩, rings := ⟨3, 0, 0⟩ },
                   white := { tiles := ⟨9, 1⟩, discs := ⟨5, 1, 0⟩, rings := ⟨3, 0, 0⟩ } } }

theorem disc_bookkeeping_conservation_witness :
    (getPlayer (placeRing ringPlacementState ⟨0, 0⟩).players Color.black).discs.captured
        = (getPlayer ringPlacementState.players Color.black).discs.captured - 1
    ∧ (getPlayer (placeRing ringPlacementState ⟨0, 0⟩).players Color.white).discs.total
        = (getPlayer ringPlacementState.players Color.white).discs.total + 1
    ∧ (getPlayer (placeRing ringPlacementState ⟨0, 0⟩).players Color.black).discs.total
        = (getPlayer ringPlacementState.players Color.black).discs.total
    ∧ (getPlayer (placeRing ringPlacementState ⟨0, 0⟩).players Color.white).discs.captured
        = (getPlayer ringPlacementState.players Color.white).discs.captured :=
  disc_bookkeeping_conservation.1 ringPlacementState ⟨0, 0⟩ ⟨Color.black, none⟩ (by decide)
